import Mathlib

/-!
Verification of the gemini-cli-openai translation-and-resilience engine.

Shallow embedding of the core of the repository:

* `GeminiApiClient.parseSSEStream` (src/gemini-client.ts, lines 132-166) —
  the incremental SSE event-stream reassembler;
* `GeminiApiClient.messageToGeminiFormat` (lines 170-258) — the request-direction
  content translator;
* `GeminiApiClient.performStreamRequest` (lines 471-664) — the retry / account
  rotation / model fallback state machine, with its success-body chunk emission;
* `GeminiApiClient.getCompletion` (lines 668-738) — the non-streaming aggregator;
* `AuthManager` (src/auth.ts) — token lifecycle, `initializeAuth`,
  `refreshAndCacheToken`, `callEndpoint` with account rotation.

JavaScript strings are modelled as `List Char` where character-level splitting
matters (the SSE reassembler) and as Lean `String` elsewhere.  Timestamps
(`Date.now()`, `expiry_date`) are `Int` milliseconds.  Network effects are
modelled by explicit response scripts (a list of `HttpResult` values consumed
one per `fetch`) and a deterministic OAuth-refresh oracle.  JSON decoding of
record payloads is an abstract parameter `parse : List Char → Option J`
(`JSON.parse` is deterministic in the payload, which is all the theorems use).
-/

namespace GeminiProxy

/-! ## SSE event-stream reassembler (`parseSSEStream`)

The TypeScript source pipes the byte stream through `TextDecoderStream` (a
streaming UTF-8 decoder, so byte-level chunk boundaries — including splits in
the middle of a multi-byte character — are absorbed and the decoded character
sequence is independent of the byte chunking) and then processes text chunks:
it accumulates a `buffer`, splits it on `"\n"`, keeps the final (possibly
incomplete) line in the buffer, and for every complete line: a line whose
`trim()` is empty terminates the current record (the accumulated payload is
`JSON.parse`d and yielded; a parse failure is logged and the record skipped),
a line starting with `"data: "` contributes `line.substring(6)` to the current
record's payload, and any other line is ignored.  At end of stream a non-empty
accumulated payload is parsed and yielded; the trailing incomplete line in
`buffer` is discarded. -/
/-- The set of characters `String.prototype.trim` removes (ECMAScript
WhiteSpace and LineTerminator code points).  `line.trim() === ""` holds exactly
when every character of the line is in this set. -/
def jsWhitespace (c : Char) : Bool :=
  c == ' ' || c == '\t' || c == '\n' || c == '\r' || c == '\x0B' || c == '\x0C' ||
  c.toNat == 0xA0 || c.toNat == 0x1680 || (0x2000 ≤ c.toNat && c.toNat ≤ 0x200A) ||
  c.toNat == 0x2028 || c.toNat == 0x2029 || c.toNat == 0x202F || c.toNat == 0x205F ||
  c.toNat == 0x3000 || c.toNat == 0xFEFF

/-- `line.trim() === ""`. -/
def jsBlank (l : List Char) : Bool := l.all jsWhitespace

/-- The fixed SSE marker `"data: "`. -/
def dataMarker : List Char := "data: ".toList

/-- `line.startsWith(p)` on JS strings, at character level. -/
def listStartsWith : List Char → List Char → Bool
  | [], _ => true
  | _ :: _, [] => false
  | p :: ps, c :: cs => p == c && listStartsWith ps cs

/-- `s.split("\n")` on a JS string: always non-empty, the final element is the
trailing (possibly empty) segment after the last newline. -/
def splitNl : List Char → List (List Char)
  | [] => [[]]
  | c :: cs =>
    if c = '\n' then [] :: splitNl cs
    else
      match splitNl cs with
      | [] => [[c]]
      | l :: ls => (c :: l) :: ls

/-- State of the reassembler between reads: the trailing incomplete line
(`buffer`), the payload of the record currently being accumulated
(`objectBuffer`), and the records yielded so far. -/
structure SSEState (J : Type) where
  buffer : List Char
  objectBuffer : List Char
  out : List J

/-- Processing of one complete line (body of the `for (const line of lines)`
loop in `parseSSEStream`). -/
def processLine (parse : List Char → Option J) (st : SSEState J) (line : List Char) :
    SSEState J :=
  if jsBlank line then
    if st.objectBuffer ≠ [] then
      { st with out := st.out ++ (parse st.objectBuffer).toList, objectBuffer := [] }
    else st
  else if listStartsWith dataMarker line then
    { st with objectBuffer := st.objectBuffer ++ line.drop 6 }
  else st

/-- Processing of one decoded text chunk (`value`) delivered by the reader:
append to the buffer, split on newlines, keep the final incomplete line, and
run every complete line through `processLine`. -/
def processChunk (parse : List Char → Option J) (st : SSEState J) (value : List Char) :
    SSEState J :=
  let ls := splitNl (st.buffer ++ value)
  let st1 := ls.dropLast.foldl (processLine parse) st
  { st1 with buffer := ls.getLastD [] }

/-- End-of-stream step (`done` branch): a non-empty accumulated payload is
parsed and yielded as a best-effort final record. -/
def sseFinish (parse : List Char → Option J) (st : SSEState J) : List J :=
  st.out ++ (if st.objectBuffer ≠ [] then (parse st.objectBuffer).toList else [])

/-- `parseSSEStream`: the decoded record sequence produced from a list of
transport chunks. -/
def parseSSEStream (parse : List Char → Option J) (chunks : List (List Char)) : List J :=
  sseFinish parse (chunks.foldl (processChunk parse) ⟨[], [], []⟩)

/-- The reassembler run on the whole stream as a single chunk. -/
def sseDecode (parse : List Char → Option J) (s : List Char) : List J :=
  parseSSEStream parse [s]

/-- Merging of the last line of the left part with the first line of the right
part when splitting a concatenation. -/
def consHead (x : List Char) : List (List Char) → List (List Char)
  | [] => [x]
  | h :: t => (x ++ h) :: t

/-! ### Payload view of the reassembler (for C7) -/
/-- Spec-side view of the reassembler state: the accumulated payload of the
current record and the payloads of the records completed so far (including, at
end of stream, the trailing unterminated one). -/
structure PayloadState where
  objectBuffer : List Char
  recs : List (List Char)

/-- Payload-view line step: mirrors `processLine` but records the raw payload
instead of its parse. -/
def payloadLine (st : PayloadState) (line : List Char) : PayloadState :=
  if jsBlank line then
    if st.objectBuffer ≠ [] then
      { objectBuffer := [], recs := st.recs ++ [st.objectBuffer] }
    else st
  else if listStartsWith dataMarker line then
    { st with objectBuffer := st.objectBuffer ++ line.drop 6 }
  else st

/-- Payload-view end of stream: a non-empty unterminated payload counts as one
final record. -/
def payloadFinish (st : PayloadState) : List (List Char) :=
  st.recs ++ (if st.objectBuffer ≠ [] then [st.objectBuffer] else [])

/-- The sequence of record payloads of a stream: one entry per blank-line
terminated record, plus the trailing accumulated-but-unterminated payload when
non-empty. -/
def sseRecordPayloads (s : List Char) : List (List Char) :=
  payloadFinish ((splitNl s).dropLast.foldl payloadLine ⟨[], []⟩)

/-! ## Data model: chunks, parts, messages

The TypeScript source distinguishes content-part and chunk variants by the
presence of optional fields; parts are modelled as a structure of `Option`
fields (exactly one is normally populated) and caller-visible chunks as an
inductive indexed by the `type` tag.  `α` is the type of decoded JSON argument
objects of function calls (the source never inspects them, only
`JSON.parse`/`JSON.stringify`s them, which stay abstract), `γ` the type of
grounding metadata (handed to the external citations processor untouched). -/
/-- `GeminiFunctionCall` from types.ts: `{name, args}`. -/
structure GeminiFunctionCall (α : Type) where
  name : String
  args : α
deriving DecidableEq

structure FunctionResponseBody where
  result : String
deriving DecidableEq

structure FunctionResponsePart where
  name : String
  response : FunctionResponseBody
deriving DecidableEq

structure InlineDataPart where
  mimeType : String
  data : String
deriving DecidableEq

structure FileDataPart where
  mimeType : String
  fileUri : String
deriving DecidableEq

/-- `GeminiPart`: the upstream wire content part, a bag of optional fields. -/
structure GeminiPart (α : Type) where
  text : Option String := none
  thought : Option Bool := none
  functionCall : Option (GeminiFunctionCall α) := none
  functionResponse : Option FunctionResponsePart := none
  inlineData : Option InlineDataPart := none
  fileData : Option FileDataPart := none
deriving DecidableEq

structure UsageData where
  inputTokens : Nat
  outputTokens : Nat
deriving DecidableEq

structure ReasoningData where
  reasoning : String
deriving DecidableEq

/-- `StreamChunk`: the normalized caller-visible chunk, one constructor per
`type` tag value. -/
inductive StreamChunk (α : Type) where
  | text (data : String)
  | reasoning (data : ReasoningData)
  | thinking_content (data : String)
  | real_thinking (data : String)
  | tool_code (data : GeminiFunctionCall α)
  | usage (data : UsageData)
deriving DecidableEq

inductive Role where
  | system | user | assistant | tool
deriving DecidableEq

structure ImageUrlField where
  url : String
deriving DecidableEq

/-- One element of an array-valued message content.  A missing `image_url`
field is `none` (the source checks its truthiness). -/
inductive ContentItem where
  | text (text : String)
  | image_url (image_url : Option ImageUrlField)
deriving DecidableEq

/-- `msg.content`: a plain string, an array of typed items, or anything else
(the defensive fallback stringifies it; `other` carries `String(content)`). -/
inductive MessageContent where
  | str (s : String)
  | items (l : List ContentItem)
  | other (asString : String)
deriving DecidableEq

structure ToolCallFunction where
  name : String
  arguments : String
deriving DecidableEq

structure ToolCall where
  type : String
  function : ToolCallFunction
deriving DecidableEq

structure ChatMessage where
  role : Role
  content : MessageContent
  tool_calls : Option (List ToolCall) := none
  tool_call_id : Option String := none
deriving DecidableEq

/-- JS string truthiness: `undefined` and `""` are falsy. -/
def truthyStr : Option String → Option String
  | some s => if s = "" then none else some s
  | none => none

/-- Result shape of the external `validateImageUrl` collaborator. -/
structure ImageValidation where
  isValid : Bool
  error : Option String := none
  mimeType : Option String := none

/-- `GeminiFormattedMessage`: `{role, parts}` sent upstream. -/
structure GeminiFormattedMessage (α : Type) where
  role : String
  parts : List (GeminiPart α)
deriving DecidableEq

/-! ## Request-direction translator (`messageToGeminiFormat`)

Parameters stand for the external collaborators: `validate` is
`validateImageUrl`, `parseArgs` is `JSON.parse` on serialized tool-call
arguments (it can fail, which the source lets propagate), `stringifyContent`
is `JSON.stringify` applied to a non-string message content. -/
def messageToGeminiFormat {α : Type} (validate : String → ImageValidation)
    (parseArgs : String → Except String α) (stringifyContent : MessageContent → String)
    (msg : ChatMessage) : Except String (GeminiFormattedMessage α) :=
  let role := if msg.role = .assistant then "model" else "user"
  -- tool-result messages
  if msg.role = .tool then
    let resultStr := match msg.content with
      | .str s => s
      | c => stringifyContent c
    let frPart : GeminiPart α :=
      { functionResponse := some
          ({ name := (truthyStr msg.tool_call_id).getD "unknown_function",
             response := { result := resultStr } }) }
    .ok { role := "user", parts := [frPart] }
  -- assistant messages carrying tool calls
  else if msg.role = .assistant ∧ 0 < (msg.tool_calls.getD []).length then
    let textParts : List (GeminiPart α) := match msg.content with
      | .str s => if !(s.toList.all jsWhitespace) then [{ text := some s }] else []
      | _ => []
    do
      let fcParts ← (msg.tool_calls.getD []).foldlM (fun acc tc =>
        if tc.type = "function" then do
          let args ← parseArgs tc.function.arguments
          let part : GeminiPart α :=
            { functionCall := some ({ name := tc.function.name, args := args }) }
          pure (acc ++ [part])
        else pure acc) []
      pure { role := "model", parts := textParts ++ fcParts }
  else
    match msg.content with
    | .str s => .ok { role := role, parts := [{ text := some s }] }
    | .items l => do
        let parts ← l.foldlM (fun acc c =>
          match c with
          | .text t => pure (acc ++ [({ text := some t } : GeminiPart α)])
          | .image_url none => pure acc
          | .image_url (some iu) =>
            let v := validate iu.url
            if v.isValid = false then
              Except.error ("Invalid image: " ++ v.error.getD "undefined")
            else if iu.url.startsWith "data:" then
              let segs := iu.url.splitOn ","
              let mediaType :=
                (((segs.headD "").splitOn ":").getD 1 "").splitOn ";" |>.headD ""
              let part : GeminiPart α :=
                { inlineData := some ({ mimeType := mediaType, data := segs.getD 1 "" }) }
              pure (acc ++ [part])
            else
              let part : GeminiPart α :=
                { fileData := some
                    ({ mimeType := (truthyStr v.mimeType).getD "image/jpeg",
                       fileUri := iu.url }) }
              pure (acc ++ [part])) []
        pure { role := role, parts := parts }
    | .other repr => .ok { role := role, parts := [{ text := some repr }] }

/-! ## Response-direction chunk emission (success body of
`performStreamRequest`, lines 600-656)

State of the thinking wrapper across one response body, and the per-part /
per-record emission functions.  `ntc` is `needsThinkingClose`, `rtac` is
`realThinkingAsContent`, `nt` says whether a `nativeToolsManager` was passed
(in which case every text chunk runs through the external citations processor
`cite`, a pure per-chunk transform per the design). -/
structure ThinkSt where
  hasClosedThinking : Bool
  hasStartedThinking : Bool
deriving DecidableEq

def openTagStr : String := "<thinking>\n"

def closeTagStr : String := "\n</thinking>\n\n"

def emitPart {α γ : Type} (ntc rtac nt : Bool) (cite : String → Option γ → String)
    (gmeta : Option γ) (s : ThinkSt) (p : GeminiPart α) : ThinkSt × List (StreamChunk α) :=
  match truthyStr p.text with
  | some t =>
    if p.thought = some true then
      -- real thinking content
      if rtac then
        if s.hasStartedThinking then (s, [.thinking_content t])
        else ({ s with hasStartedThinking := true },
          [.thinking_content openTagStr, .thinking_content t])
      else (s, [.real_thinking t])
    else
      -- regular text content
      let needClose := (ntc || (rtac && s.hasStartedThinking)) && !s.hasClosedThinking
      let s' := if needClose then { s with hasClosedThinking := true } else s
      let pre : List (StreamChunk α) := if needClose then [.thinking_content closeTagStr] else []
      (s', pre ++ [.text (if nt then cite t gmeta else t)])
  | none =>
    match p.functionCall with
    | some fc =>
      let needClose := (ntc || (rtac && s.hasStartedThinking)) && !s.hasClosedThinking
      let s' := if needClose then { s with hasClosedThinking := true } else s
      let pre : List (StreamChunk α) := if needClose then [.thinking_content closeTagStr] else []
      (s', pre ++ [.tool_code ({ name := fc.name, args := fc.args })])
    | none => (s, [])

structure CandidateContent (α : Type) where
  parts : Option (List (GeminiPart α)) := none
deriving DecidableEq

structure GeminiCandidate (α γ : Type) where
  content : Option (CandidateContent α) := none
  groundingMetadata : Option γ := none
deriving DecidableEq

structure GeminiUsageMetadata where
  promptTokenCount : Option Nat := none
  candidatesTokenCount : Option Nat := none
deriving DecidableEq

structure GeminiResponseBody (α γ : Type) where
  candidates : Option (List (GeminiCandidate α γ)) := none
  usageMetadata : Option GeminiUsageMetadata := none
deriving DecidableEq

/-- One decoded SSE record (`GeminiResponse`). -/
structure GeminiResponse (α γ : Type) where
  response : Option (GeminiResponseBody α γ) := none
deriving DecidableEq

def emitParts {α γ : Type} (ntc rtac nt : Bool) (cite : String → Option γ → String)
    (gmeta : Option γ) (s : ThinkSt) (ps : List (GeminiPart α)) :
    ThinkSt × List (StreamChunk α) :=
  ps.foldl (fun acc p =>
    let r := emitPart ntc rtac nt cite gmeta acc.1 p
    (r.1, acc.2 ++ r.2)) (s, [])

def emitRecord {α γ : Type} (ntc rtac nt : Bool) (cite : String → Option γ → String)
    (s : ThinkSt) (rec : GeminiResponse α γ) : ThinkSt × List (StreamChunk α) :=
  let cand := rec.response.bind (fun r => r.candidates.bind (·.head?))
  let r1 := match (cand.bind (·.content)).bind (·.parts) with
    | some ps => emitParts ntc rtac nt cite (cand.bind (·.groundingMetadata)) s ps
    | none => (s, [])
  match rec.response.bind (·.usageMetadata) with
  | some u =>
    let ud : UsageData := { inputTokens := u.promptTokenCount.getD 0,
                            outputTokens := u.candidatesTokenCount.getD 0 }
    (r1.1, r1.2 ++ [.usage ud])
  | none => r1

/-- Chunk sequence emitted while consuming a successful response body
(the `for await (const jsonData of this.parseSSEStream(...))` loop). -/
def emitBody {α γ : Type} (ntc rtac nt : Bool) (cite : String → Option γ → String)
    (records : List (GeminiResponse α γ)) : List (StreamChunk α) :=
  (records.foldl (fun acc rec =>
    let r := emitRecord ntc rtac nt cite acc.1 rec
    (r.1, acc.2 ++ r.2)) ((⟨false, false⟩ : ThinkSt), [])).2

/-! ## Non-streaming aggregation (`getCompletion`) -/
structure ToolCallOutFunction where
  name : String
  arguments : String
deriving DecidableEq

/-- One entry of the OpenAI-shaped `tool_calls` list, with a synthesized
`call_`-prefixed identifier. -/
structure ToolCallOut where
  id : String
  type : String
  function : ToolCallOutFunction
deriving DecidableEq

structure CompletionResult where
  content : String
  usage : Option UsageData := none
  tool_calls : Option (List ToolCallOut) := none
deriving DecidableEq

/-- The chunk-draining loop of `getCompletion`.  `stringify` is
`JSON.stringify` on decoded argument objects; `uuid k` is the
`crypto.randomUUID()` value drawn when the `k`-th tool call is collected. -/
def getCompletionGo {α : Type} (stringify : α → String) (uuid : Nat → String) :
    List (StreamChunk α) → String → Option UsageData → List ToolCallOut →
      String × Option UsageData × List ToolCallOut
  | [], c, u, t => (c, u, t)
  | ch :: rest, c, u, t =>
    match ch with
    | .text s => getCompletionGo stringify uuid rest (c ++ s) u t
    | .usage ud => getCompletionGo stringify uuid rest c (some ud) t
    | .tool_code fc => getCompletionGo stringify uuid rest c u
        (t ++ [{ id := "call_" ++ uuid t.length, type := "function",
                 function := { name := fc.name, arguments := stringify fc.args } }])
    | _ => getCompletionGo stringify uuid rest c u t

/-- `getCompletion`'s aggregation of one streaming call's chunk sequence. -/
def getCompletionAgg {α : Type} (stringify : α → String) (uuid : Nat → String)
    (chunks : List (StreamChunk α)) : CompletionResult :=
  let r := getCompletionGo stringify uuid chunks "" none []
  { content := r.1, usage := r.2.1,
    tool_calls := if 0 < r.2.2.length then some r.2.2 else none }

def chunkText {α : Type} : StreamChunk α → Option String
  | .text s => some s
  | _ => none

def chunkUsage {α : Type} : StreamChunk α → Option UsageData
  | .usage u => some u
  | _ => none

def chunkTool {α : Type} : StreamChunk α → Option (GeminiFunctionCall α)
  | .tool_code f => some f
  | _ => none

def mkToolCallOut {α : Type} (stringify : α → String) (uuid : Nat → String)
    (i : Nat) (fc : GeminiFunctionCall α) : ToolCallOut :=
  { id := "call_" ++ uuid i, type := "function",
    function := { name := fc.name, arguments := stringify fc.args } }

/-! ## C8: text round-trip through the translator -/
/-- Concrete stand-ins for the external collaborators, used by witnesses. -/
def validateAlwaysOk : String → ImageValidation := fun _ => { isValid := true }

def parseArgsUnit : String → Except String Unit := fun _ => .ok ()

def stringifyContentNull : MessageContent → String := fun _ => "null"

def citePlain : String → Option Unit → String := fun s _ => s

/-! ## AuthManager (src/auth.ts)

Timestamps are `Int` milliseconds (`Date.now()` is the explicit `now`
parameter).  The OAuth endpoint is a deterministic oracle
`ro : String → RefreshHttp` mapping a refresh token to the HTTP response of
the refresh `POST`.  Control-endpoint `fetch`es consume an explicit script of
`HttpResult` values.  `refreshCalls`, `fetches` and `sentTokens` are ghost
instrumentation counting OAuth refresh requests, endpoint requests, and the
bearer token attached to each endpoint request; they affect nothing. -/
structure Credentials where
  access_token : String
  refresh_token : String
  /-- `expiry_date` in ms; the source reads a missing value through `|| 0`,
  so absence is modelled as `0`. -/
  expiry_date : Int := 0
deriving DecidableEq

structure Account where
  credentials : Credentials
  project_id : Option String := none
deriving DecidableEq

structure CachedTokenData where
  access_token : String
  expiry_date : Int
  cached_at : Int
deriving DecidableEq

/-- `TOKEN_BUFFER_TIME` (config.ts): 5 minutes in milliseconds. -/
def TOKEN_BUFFER_TIME : Int := 5 * 60 * 1000

/-- `AuthManager`'s mutable fields.  The token cache is keyed by
`account_${index}`, modelled as the index itself. -/
structure AuthState where
  accounts : List Account
  currentAccountIndex : Nat := 0
  accessToken : Option String := none
  tokenCache : List (Nat × CachedTokenData) := []
  /-- ghost: number of `POST`s to the OAuth refresh endpoint so far. -/
  refreshCalls : Nat := 0
deriving DecidableEq

def cacheGet (k : Nat) (m : List (Nat × CachedTokenData)) : Option CachedTokenData :=
  (m.find? (fun e => e.1 == k)).map (·.2)

def cacheSet (k : Nat) (v : CachedTokenData) (m : List (Nat × CachedTokenData)) :
    List (Nat × CachedTokenData) :=
  (k, v) :: m.filter (fun e => !(e.1 == k))

def cacheDel (k : Nat) (m : List (Nat × CachedTokenData)) : List (Nat × CachedTokenData) :=
  m.filter (fun e => !(e.1 == k))

/-- `switchToNextAccount`: round-robin advance, force re-authentication. -/
def switchToNextAccount (st : AuthState) : AuthState :=
  { st with currentAccountIndex := (st.currentAccountIndex + 1) % st.accounts.length,
            accessToken := none }

/-- `clearTokenCache`: drop the current account's cache entry. -/
def clearTokenCache (st : AuthState) : AuthState :=
  { st with tokenCache := cacheDel st.currentAccountIndex st.tokenCache }

/-- `cacheToken`. -/
def cacheTokenOp (now : Int) (st : AuthState) (accessToken : String) (expiryDate : Int) :
    AuthState :=
  let tokenData : CachedTokenData :=
    { access_token := accessToken, expiry_date := expiryDate, cached_at := now }
  { st with tokenCache := cacheSet st.currentAccountIndex tokenData st.tokenCache }

structure TokenRefreshResponse where
  access_token : String
  expires_in : Int
deriving DecidableEq

/-- HTTP response of the OAuth refresh endpoint; `body` is only read when the
status is a success. -/
structure RefreshHttp where
  status : Nat
  body : TokenRefreshResponse
deriving DecidableEq

/-- `Response.ok`. -/
def httpOk (status : Nat) : Bool := 200 ≤ status && status < 300

/-- `refreshAndCacheToken`.  Exceptions carry the source's message; state
changes made before a throw persist (JS has no rollback). -/
def refreshAndCacheToken (ro : String → RefreshHttp) (now : Int) (st0 : AuthState)
    (refreshToken : String) : Except String Unit × AuthState :=
  let st := { st0 with refreshCalls := st0.refreshCalls + 1 }
  let resp := ro refreshToken
  if httpOk resp.status then
    let st := { st with accessToken := some resp.body.access_token }
    (.ok (), cacheTokenOp now st resp.body.access_token (now + resp.body.expires_in * 1000))
  else
    (.error ("Token refresh failed for account " ++ toString st.currentAccountIndex ++ ": "
      ++ toString resp.status), st)

/-- `initializeAuth`: cached token if fresh per the buffer, else the static
credential if fresh per the buffer (cached on adoption), else a refresh; any
error inside the `try` is rethrown with the `Authentication failed: ` prefix. -/
def initializeAuth (ro : String → RefreshHttp) (now : Int) (st : AuthState) :
    Except String Unit × AuthState :=
  match st.accounts.get? st.currentAccountIndex with
  | none => (.error "No Google account is currently active or available.", st)
  | some currentAccount =>
    let cachedHit :=
      match cacheGet st.currentAccountIndex st.tokenCache with
      | some c =>
        if TOKEN_BUFFER_TIME < c.expiry_date - now
        then some c.access_token
        else none
      | none => none
    match cachedHit with
    | some tok => (.ok (), { st with accessToken := some tok })
    | none =>
      if TOKEN_BUFFER_TIME < currentAccount.credentials.expiry_date - now then
        let st1 := { st with accessToken := some currentAccount.credentials.access_token }
        (.ok (), cacheTokenOp now st1 currentAccount.credentials.access_token
          currentAccount.credentials.expiry_date)
      else
        match refreshAndCacheToken ro now st currentAccount.credentials.refresh_token with
        | (.ok _, st') => (.ok (), st')
        | (.error e, st') => (.error ("Authentication failed: " ++ e), st')

/-! ### `callEndpoint` -/
/-- Outcome of one `fetch`: an HTTP response or a rejected promise. -/
inductive HttpResult (β : Type) where
  | resp (status : Nat) (body : β)
  | netError (msg : String)
deriving DecidableEq

/-- State threaded through `callEndpoint`: auth state, the response script of
the control endpoint, and ghost instrumentation. -/
structure EndpointCtx (β : Type) where
  auth : AuthState
  script : List (HttpResult β)
  /-- ghost: number of `POST`s to the control endpoint so far. -/
  fetches : Nat := 0
  /-- ghost: the bearer token attached to each `POST`, in order. -/
  sentTokens : List (Option String) := []
deriving DecidableEq

/-- One control-endpoint `fetch`: consumes the next scripted response (an
exhausted script behaves as a transport failure). -/
def epFetch {β : Type} (ctx : EndpointCtx β) : HttpResult β × EndpointCtx β :=
  match ctx.script with
  | [] => (.netError "network error",
      { ctx with fetches := ctx.fetches + 1,
                 sentTokens := ctx.sentTokens ++ [ctx.auth.accessToken] })
  | r :: rest => (r,
      { ctx with script := rest, fetches := ctx.fetches + 1,
                 sentTokens := ctx.sentTokens ++ [ctx.auth.accessToken] })

/-- Body of one iteration of `callEndpoint`'s account loop.  `none` means the
iteration failed, the account was switched, and the loop continues; `some b`
means the decoded body `b` is returned.  Any exception inside the `try`
(auth failure, transport error, non-retryable status) lands in the `catch`,
which switches account and continues. -/
def callEndpointAttempt {β : Type} (ro : String → RefreshHttp) (now : Int)
    (ctx : EndpointCtx β) : Option β × EndpointCtx β :=
  match initializeAuth ro now ctx.auth with
  | (.error _, a') => (none, { ctx with auth := switchToNextAccount a' })
  | (.ok _, a') =>
    let ctx1 := { ctx with auth := a' }
    let fr := epFetch ctx1
    match fr.1 with
    | .netError _ => (none, { fr.2 with auth := switchToNextAccount fr.2.auth })
    | .resp status body =>
      if httpOk status then (some body, fr.2)
      else if status == 429 || status == 403 then
        (none, { fr.2 with auth := switchToNextAccount fr.2.auth })
      else if status == 401 then
        let a1 := clearTokenCache { fr.2.auth with accessToken := none }
        match initializeAuth ro now a1 with
        | (.error _, a2) => (none, { fr.2 with auth := switchToNextAccount a2 })
        | (.ok _, a2) =>
          let ctx2 := { fr.2 with auth := a2 }
          let fr2 := epFetch ctx2
          match fr2.1 with
          | .netError _ => (none, { fr2.2 with auth := switchToNextAccount fr2.2.auth })
          | .resp st2 b2 =>
            if httpOk st2 then (some b2, fr2.2)
            else (none, { fr2.2 with auth := switchToNextAccount fr2.2.auth })
      else (none, { fr.2 with auth := switchToNextAccount fr.2.auth })

def allAccountsMsg : String :=
  "All available Google accounts have failed. Please check their quotas and credentials."

def callEndpointGo {β : Type} (ro : String → RefreshHttp) (now : Int) :
    Nat → EndpointCtx β → Except String β × EndpointCtx β
  | 0, ctx => (.error allAccountsMsg, ctx)
  | n + 1, ctx =>
    match callEndpointAttempt ro now ctx with
    | (some b, ctx') => (.ok b, ctx')
    | (none, ctx') => callEndpointGo ro now n ctx'

/-- `callEndpoint`: up to `totalAccounts` attempts, then the
all-accounts-exhausted error. -/
def callEndpoint {β : Type} (ro : String → RefreshHttp) (now : Int)
    (ctx : EndpointCtx β) : Except String β × EndpointCtx β :=
  callEndpointGo ro now ctx.auth.accounts.length ctx

/-- Concrete data for the C6 witness and counterexample. -/
def acctStale : Account :=
  { credentials := { access_token := "old", refresh_token := "rt", expiry_date := 0 } }

def acctFresh : Account :=
  { credentials := { access_token := "statictok", refresh_token := "rt",
                     expiry_date := 10000000 } }

def roShortLife : String → RefreshHttp :=
  fun _ => { status := 200, body := { access_token := "shortTok", expires_in := 0 } }

/-- One stale-credential account, empty cache. -/
def stStale : AuthState := { accounts := [acctStale] }

/-- One fresh-static-credential account, empty cache. -/
def stFresh : AuthState := { accounts := [acctFresh] }

/-- `callEndpoint` context for C5: fresh static credential, endpoint answers
401 then 200. -/
def ctxC5 : EndpointCtx String :=
  { auth := stFresh, script := [.resp 401 "unauthorized", .resp 200 "okbody"] }

/-! ## Stream orchestrator (`performStreamRequest`)

The retry / rotation / fallback machine around the streaming `POST`.  The
streaming endpoint is scripted like the control endpoint; a successful
response's body is the (already reassembled and decoded) record sequence,
which the machine runs through the chunk emission above.  Ghost fields record
each streaming `POST`'s active account index and exact request body.
The auto-model-switch helper (an external collaborator) appears as the
`isRateLimitStatus` / `getFallbackModel` / `autoSwitchEnabled` /
`switchNotification` parameters. -/
/-- The `streamRequest` body: the machine only reads and writes `model` and
`project`; the `request` payload is the opaque `rest`. -/
structure StreamReqBody (ρ : Type) where
  model : String
  project : String
  rest : ρ
deriving DecidableEq

structure GState (α γ ρ : Type) where
  auth : AuthState
  /-- `GeminiApiClient.projectId`: the process-wide discovered-project cache. -/
  clientProjectId : Option String := none
  controlScript : List (HttpResult (Option String)) := []
  controlFetches : Nat := 0
  controlSentTokens : List (Option String) := []
  streamScript : List (HttpResult (List (GeminiResponse α γ))) := []
  /-- ghost: number of streaming `POST`s issued. -/
  streamFetches : Nat := 0
  /-- ghost: (active account index, request body) for each streaming `POST`. -/
  streamTrace : List (Nat × StreamReqBody ρ) := []
deriving DecidableEq

def discoveryFailMsg : String :=
  "Could not discover project ID. Make sure you're authenticated and consider setting GEMINI_PROJECT_ID."

/-- `discoverProjectId`: the active account's static project id when truthy,
else the process-wide cache when truthy, else a `loadCodeAssist` control call
through `callEndpoint`, adopting (and caching) the returned project; any
failure inside the `try` surfaces as the generic discovery error. -/
def discoverProjectIdM {α γ ρ : Type} (ro : String → RefreshHttp) (now : Int)
    (st : GState α γ ρ) : Except String String × GState α γ ρ :=
  match (st.auth.accounts.get? st.auth.currentAccountIndex).bind
      (fun a => truthyStr a.project_id) with
  | some p => (.ok p, st)
  | none =>
    match truthyStr st.clientProjectId with
    | some p => (.ok p, st)
    | none =>
      let ctx : EndpointCtx (Option String) :=
        { auth := st.auth, script := st.controlScript,
          fetches := st.controlFetches, sentTokens := st.controlSentTokens }
      let r := callEndpoint ro now ctx
      let st1 :=
        { st with auth := r.2.auth, controlScript := r.2.script,
                  controlFetches := r.2.fetches, controlSentTokens := r.2.sentTokens }
      match r.1 with
      | .ok body =>
        match truthyStr body with
        | some p => (.ok p, { st1 with clientProjectId := some p })
        | none => (.error discoveryFailMsg, st1)
      | .error _ => (.error discoveryFailMsg, st1)

/-- Configuration of one `performStreamRequest` invocation. -/
structure PsrCfg (γ : Type) where
  ro : String → RefreshHttp
  now : Int
  needsThinkingClose : Bool := false
  realThinkingAsContent : Bool := false
  originalModel : Option String := none
  nativeTools : Bool := true
  cite : String → Option γ → String
  isRateLimitStatus : Nat → Bool := fun _ => false
  autoSwitchEnabled : Bool := false
  getFallbackModel : String → Option String := fun _ => none
  switchNotification : String → String → String := fun _ _ => ""

/-- One streaming `POST`: consumes the next scripted response and records the
attempt (account index and exact body) in the ghost trace. -/
def streamFetch {α γ ρ : Type} (req : StreamReqBody ρ) (st : GState α γ ρ) :
    HttpResult (List (GeminiResponse α γ)) × GState α γ ρ :=
  match st.streamScript with
  | [] => (.netError "network error",
      { st with streamFetches := st.streamFetches + 1,
                streamTrace := st.streamTrace ++ [(st.auth.currentAccountIndex, req)] })
  | r :: rest => (r,
      { st with streamScript := rest, streamFetches := st.streamFetches + 1,
                streamTrace := st.streamTrace ++ [(st.auth.currentAccountIndex, req)] })

def quotaMsg : String := "Quota exceeded (429) for current account"

/-- The `while (attempt < maxAccountTries)` loop of `performStreamRequest`.
`onRetry` is the recursive re-invocation used by the 401-retry and
model-fallback branches (the source calls itself with `isRetry = true`; the
wrapper below ties the knot).  Every attempt first re-resolves the active
account's project id and patches it into the request body on change. -/
def psrLoop {α γ ρ : Type} (cfg : PsrCfg γ) (isRetry : Bool)
    (onRetry : StreamReqBody ρ → GState α γ ρ →
      (List (StreamChunk α) × Except String Unit) × GState α γ ρ) :
    Nat → StreamReqBody ρ → Option String → GState α γ ρ →
      (List (StreamChunk α) × Except String Unit) × GState α γ ρ
  | 0, _req, lastErr, st => (([], .error (lastErr.getD allAccountsMsg)), st)
  | n + 1, req, _lastErr, st0 =>
    let d := discoverProjectIdM cfg.ro cfg.now st0
    let req1 := match d.1 with
      | .ok p => if req.project ≠ p then { req with project := p } else req
      | .error _ => req
    let f := streamFetch req1 d.2
    match f.1 with
    | .netError m => (([], .error m), f.2)
    | .resp status records =>
      if httpOk status then
        ((emitBody cfg.needsThinkingClose cfg.realThinkingAsContent cfg.nativeTools
            cfg.cite records, .ok ()), f.2)
      else if status == 401 && !isRetry then
        match initializeAuth cfg.ro cfg.now (clearTokenCache f.2.auth) with
        | (.error e, a2) => (([], .error e), { f.2 with auth := a2 })
        | (.ok _, a2) => onRetry req1 { f.2 with auth := a2 }
      else if status == 429 || status == 403 then
        match initializeAuth cfg.ro cfg.now (switchToNextAccount f.2.auth) with
        | (.error e, a2) => (([], .error e), { f.2 with auth := a2 })
        | (.ok _, a2) =>
          psrLoop cfg isRetry onRetry n req1 (some quotaMsg) { f.2 with auth := a2 }
      else
        match truthyStr cfg.originalModel with
        | some om =>
          if cfg.isRateLimitStatus status && !isRetry then
            match truthyStr (cfg.getFallbackModel om) with
            | some fb =>
              if cfg.autoSwitchEnabled then
                let r := onRetry { req1 with model := fb } f.2
                ((StreamChunk.text (cfg.switchNotification om fb) :: r.1.1, r.1.2), r.2)
              else (([], .error ("Stream request failed: " ++ toString status)), f.2)
            | none => (([], .error ("Stream request failed: " ++ toString status)), f.2)
          else (([], .error ("Stream request failed: " ++ toString status)), f.2)
        | none => (([], .error ("Stream request failed: " ++ toString status)), f.2)

/-- `performStreamRequest`: the loop bound is `accounts?.length || 1`; the
401-retry and fallback branches re-enter a fresh loop with `isRetry = true`
(which can neither 401-retry nor fall back again, so its own retry
continuation is unreachable). -/
def performStreamRequestM {α γ ρ : Type} (cfg : PsrCfg γ) (req : StreamReqBody ρ)
    (isRetry : Bool) (st : GState α γ ρ) :
    (List (StreamChunk α) × Except String Unit) × GState α γ ρ :=
  let maxTries := match st.auth.accounts.length with
    | 0 => 1
    | k + 1 => k + 1
  if isRetry then
    psrLoop cfg true (fun _ s => (([], .error allAccountsMsg), s)) maxTries req none st
  else
    psrLoop cfg false
      (fun r s => psrLoop cfg true (fun _ s' => (([], .error allAccountsMsg), s'))
        maxTries r none s)
      maxTries req none st

/-! ### Concrete runs for C1, C2, C4 -/
def acctNoProj0 : Account :=
  { credentials := { access_token := "t0", refresh_token := "r0", expiry_date := 10000000 } }

def acctNoProj1 : Account :=
  { credentials := { access_token := "t1", refresh_token := "r1", expiry_date := 10000000 } }

def acctP0 : Account :=
  { credentials := { access_token := "t0", refresh_token := "r0", expiry_date := 10000000 },
    project_id := some "p0" }

def acctP1 : Account :=
  { credentials := { access_token := "t1", refresh_token := "r1", expiry_date := 10000000 },
    project_id := some "p1" }

/-- A one-record response body whose single candidate carries one text part. -/
def recText (t : String) : GeminiResponse Unit Unit :=
  let part : GeminiPart Unit := { text := some t }
  let cand : GeminiCandidate Unit Unit := { content := some ({ parts := some [part] }) }
  { response := some ({ candidates := some [cand] }) }

def cfgBase : PsrCfg Unit := { ro := roShortLife, now := 0, cite := fun s _ => s }

def reqInit : StreamReqBody Unit := { model := "m", project := "init", rest := () }

def reqP0 : StreamReqBody Unit := { model := "m", project := "proj-0", rest := () }

/-- C1 run: two accounts with no static project ids; discovery under account 0
returns `proj-0`; the first stream attempt gets 429 and rotates to account 1;
a further control response `proj-1` is available but never requested. -/
def gstC1 : GState Unit Unit Unit :=
  { auth := { accounts := [acctNoProj0, acctNoProj1] },
    controlScript := [.resp 200 (some "proj-0"), .resp 200 (some "proj-1")],
    streamScript := [.resp 429 [], .resp 200 []] }

/-- C4 run: two accounts with static project ids; every streaming attempt
returns 429. -/
def gstC4 : GState Unit Unit Unit :=
  { auth := { accounts := [acctP0, acctP1] },
    streamScript := [.resp 429 [], .resp 429 []] }

/-- C2 run (a): content-mode thinking synthesis (`needsThinkingClose = true`),
fallback configured; first attempt rate-limited (500), retry succeeds with one
text part `"hi"`. -/
def cfgC2a : PsrCfg Unit :=
  { ro := roShortLife, now := 0, needsThinkingClose := true, originalModel := some "m",
    autoSwitchEnabled := true, isRateLimitStatus := fun s => s == 500,
    getFallbackModel := fun _ => some "fb", switchNotification := fun _ _ => "SWITCH",
    cite := fun s _ => s }

def gstC2a : GState Unit Unit Unit :=
  { auth := { accounts := [acctP0] },
    streamScript := [.resp 500 [], .resp 200 [recText "hi"]] }

/-- C2 run (b): content-mode thinking synthesis, upstream success body empty. -/
def cfgC2b : PsrCfg Unit :=
  { ro := roShortLife, now := 0, needsThinkingClose := true, cite := fun s _ => s }

def gstC2b : GState Unit Unit Unit :=
  { auth := { accounts := [acctP0] }, streamScript := [.resp 200 []] }

/-! ## Reasoning synthesis (`generateReasoningOutput`, content mode)

The canned narrative `REASONING_MESSAGES` and the chunk target size
`THINKING_CONTENT_CHUNK_SIZE` live in constants.ts (not under src/), so they
are parameters (`msgs`, `size`).  The splitter is the source's loop: prefer a
break character within `searchSpace = remaining.substring(0, size+10)` whose
last occurrence lies past `0.7·size` (the float comparison `lastBreak >
size*0.7` is modelled exactly on rationals as `7·size < 10·lastBreak`). -/
def goodBreaks : List Char := [' ', '\n', '.', ',', '!', '?', ';', ':']

/-- `searchSpace.lastIndexOf(c)`. -/
def lastIdxOf (c : Char) (l : List Char) : Option Nat :=
  match l.reverse.findIdx? (· == c) with
  | some j => some (l.length - 1 - j)
  | none => none

/-- The chunk-splitting loop.  Fuel is the remaining length; one step always
consumes at least one character when `1 ≤ size`, so the fuel suffices. -/
def splitChunksGo (size : Nat) : Nat → List Char → List (List Char)
  | 0, _ => []
  | fuel + 1, rem =>
    if rem.length = 0 then []
    else if rem.length ≤ size then [rem]
    else
      let searchSpace := rem.take (size + 10)
      let chunkEnd := (goodBreaks.findSome? (fun bc =>
        match lastIdxOf bc searchSpace with
        | some i => if 7 * size < 10 * i then some (i + 1) else none
        | none => none)).getD size
      rem.take chunkEnd :: splitChunksGo size fuel (rem.drop chunkEnd)

/-- `str.replace(pat, rep)` on JS strings replaces the *first* (leftmost)
occurrence of the pattern, or returns the string unchanged when the pattern
does not occur. -/
def replaceFirstAux (pat rep : List Char) : List Char → List Char
  | [] => []
  | c :: cs =>
    if pat.isPrefixOf (c :: cs) then rep ++ (c :: cs).drop pat.length
    else c :: replaceFirstAux pat rep cs

def replaceFirst (s pat rep : String) : String :=
  String.mk (replaceFirstAux pat.toList rep.toList s.toList)

/-- `userContent.substring(0, 100) + (userContent.length > 100 ? "..." : "")`. -/
def requestPreview (userContent : String) : String :=
  String.mk (userContent.toList.take 100)
    ++ (if 100 < userContent.toList.length then "..." else "")

/-- Extraction of the last user message's text content. -/
def lastUserContent (messages : List ChatMessage) : String :=
  match (messages.filter (fun m => m.role = .user)).getLast? with
  | none => ""
  | some m =>
    match m.content with
    | .str s => s
    | .items l => String.intercalate " "
        (l.filterMap (fun c => match c with | .text t => some t | _ => none))
    | .other _ => ""

/-- Content-mode output of `generateReasoningOutput`: the opening
`<thinking>\n` wrapper chunk followed by the narrative split into bounded
chunks, all of type `thinking_content`. -/
def generateReasoningContentChunks {α : Type} (msgs : List String) (size : Nat)
    (messages : List ChatMessage) : List (StreamChunk α) :=
  let preview := requestPreview (lastUserContent messages)
  let fullText := String.join (msgs.map (fun m => replaceFirst m "\x7brequestPreview\x7d" preview))
  StreamChunk.thinking_content openTagStr ::
    (splitChunksGo size fullText.toList.length fullText.toList).map
      (fun c => StreamChunk.thinking_content (String.mk c))

/-! ## C2: the thinking-wrapper invariant -/
def openingChunk {α : Type} : StreamChunk α := .thinking_content openTagStr

def closingChunk {α : Type} : StreamChunk α := .thinking_content closeTagStr

def isRealChunk {α : Type} : StreamChunk α → Bool
  | .text _ => true
  | .tool_code _ => true
  | _ => false

abbrev noReal {α : Type} (l : List (StreamChunk α)) : Prop := ∀ c ∈ l, isRealChunk c = false

abbrev noClosing {α : Type} (l : List (StreamChunk α)) : Prop := ∀ c ∈ l, c ≠ closingChunk

abbrev noOpening {α : Type} (l : List (StreamChunk α)) : Prop := ∀ c ∈ l, c ≠ openingChunk

/-- Structural-recursion form of `emitParts` (the source's inner `for` loop). -/
def emitPartsR {α γ : Type} (ntc rtac nt : Bool) (cite : String → Option γ → String)
    (gmeta : Option γ) : ThinkSt → List (GeminiPart α) → ThinkSt × List (StreamChunk α)
  | s, [] => (s, [])
  | s, p :: ps =>
    let r := emitPart ntc rtac nt cite gmeta s p
    let r2 := emitPartsR ntc rtac nt cite gmeta r.1 ps
    (r2.1, r.2 ++ r2.2)

/-- Structural-recursion form of the record loop of the success body. -/
def emitRecordsR {α γ : Type} (ntc rtac nt : Bool) (cite : String → Option γ → String) :
    ThinkSt → List (GeminiResponse α γ) → ThinkSt × List (StreamChunk α)
  | s, [] => (s, [])
  | s, rec :: recs =>
    let r := emitRecord ntc rtac nt cite s rec
    let r2 := emitRecordsR ntc rtac nt cite r.1 recs
    (r2.1, r.2 ++ r2.2)

/-- Output shape of a retry-loop invocation: nothing, or the emission of one
successful response body. -/
def bodyShaped {α γ : Type} (nt : Bool) (cite : String → Option γ → String)
    (out : List (StreamChunk α)) : Prop :=
  out = [] ∨ ∃ records : List (GeminiResponse α γ), out = emitBody true false nt cite records

def msgsW : List String := ["Analyzing the request."]

def messagesW : List ChatMessage := [{ role := .user, content := .str "hello" }]

/-! ## C4: the rotation bound under all-429 upstreams -/
/-- Every configured account's static credential is fresh per the buffer. -/
abbrev allFresh (now : Int) (accounts : List Account) : Prop :=
  ∀ a ∈ accounts, TOKEN_BUFFER_TIME < a.credentials.expiry_date - now

/-- Every cache entry is fresh per the buffer. -/
abbrev cacheFresh (now : Int) (m : List (Nat × CachedTokenData)) : Prop :=
  ∀ e ∈ m, TOKEN_BUFFER_TIME < e.2.expiry_date - now

def statusOf {β : Type} : HttpResult β → Option Nat
  | .resp s _ => some s
  | .netError _ => none

/-- Every scripted upstream answer is an HTTP 429. -/
abbrev all429 {β : Type} (script : List (HttpResult β)) : Prop :=
  ∀ r ∈ script, statusOf r = some 429

/-- Every configured account carries a truthy static `project_id`. -/
abbrev allHaveProj (accounts : List Account) : Prop :=
  ∀ a ∈ accounts, (truthyStr a.project_id).isSome = true

/-- C4 witness run for `callEndpoint`: two fresh accounts, both scripted 429. -/
def ctxC4 : EndpointCtx String :=
  { auth := { accounts := [acctP0, acctP1] },
    script := [.resp 429 "a", .resp 429 "b"] }

/-! ## C1: every streaming attempt carries the active account's project id -/
/-- Every ghost-trace entry was sent while some account of `A` was active and
carries exactly that account's (truthy, static) project id. -/
def traceGood {ρ : Type} (A : List Account) (tr : List (Nat × StreamReqBody ρ)) : Prop :=
  ∀ e ∈ tr, ∃ a p, A.get? e.1 = some a ∧ truthyStr a.project_id = some p ∧ e.2.project = p

/-! ## Theorems -/

theorem splitNl_ne_nil (l : List Char) : splitNl l ≠ [] := by
  induction l with
  | nil => simp [splitNl]
  | cons c cs ih =>
    simp only [splitNl]
    split
    · simp
    · cases h : splitNl cs <;> simp

theorem not_mem_of_mem_splitNl {l : List Char} {p : List Char}
    (hp : p ∈ splitNl l) : '\n' ∉ p := by
  induction l generalizing p with
  | nil => simp [splitNl] at hp; simp [hp]
  | cons c cs ih =>
    simp only [splitNl] at hp
    split at hp
    · rcases List.mem_cons.mp hp with h | h
      · simp [h]
      · exact ih h
    · rename_i hc
      cases h : splitNl cs with
      | nil => exact absurd h (splitNl_ne_nil cs)
      | cons l0 ls =>
        rw [h] at hp
        rcases List.mem_cons.mp hp with h' | h'
        · subst h'
          intro hmem
          rcases List.mem_cons.mp hmem with h'' | h''
          · exact hc h''.symm
          · exact ih (h ▸ List.mem_cons_self l0 ls) h''
        · exact ih (h ▸ List.mem_cons_of_mem l0 h')

theorem splitNl_of_no_nl {l : List Char} (h : '\n' ∉ l) : splitNl l = [l] := by
  induction l with
  | nil => simp [splitNl]
  | cons c cs ih =>
    have hc : c ≠ '\n' := fun hc => h (hc ▸ List.mem_cons_self c cs)
    have hcs : '\n' ∉ cs := fun hm => h (List.mem_cons_of_mem c hm)
    simp only [splitNl, if_neg hc, ih hcs]

theorem consHead_ne_nil (x : List Char) (ls : List (List Char)) : consHead x ls ≠ [] := by
  cases ls <;> simp [consHead]

theorem splitNl_cons_nl (x : List Char) : splitNl ('\n' :: x) = [] :: splitNl x := by
  simp [splitNl]

theorem splitNl_cons_of_ne {c : Char} (hc : c ≠ '\n') (x : List Char) :
    splitNl (c :: x) = consHead [c] (splitNl x) := by
  simp only [splitNl, if_neg hc]
  cases h : splitNl x with
  | nil => exact absurd h (splitNl_ne_nil x)
  | cons l ls => simp [consHead]

theorem consHead_dropLast_append (x : List Char) {L sb : List (List Char)}
    (hL : L ≠ []) (hsb : sb ≠ []) :
    consHead x (L.dropLast ++ consHead (L.getLastD []) sb)
      = (consHead x L).dropLast ++ consHead ((consHead x L).getLastD []) sb := by
  cases L with
  | nil => exact absurd rfl hL
  | cons l0 ls =>
    cases ls with
    | nil =>
      cases sb with
      | nil => exact absurd rfl hsb
      | cons b0 bs => simp [consHead]
    | cons l1 ls' => simp [consHead, List.getLastD_cons]

theorem splitNl_append (a b : List Char) :
    splitNl (a ++ b) = (splitNl a).dropLast ++ consHead ((splitNl a).getLastD []) (splitNl b) := by
  induction a with
  | nil =>
    cases h : splitNl b with
    | nil => exact absurd h (splitNl_ne_nil b)
    | cons l0 ls => simp [splitNl, consHead, h]
  | cons c cs ih =>
    by_cases hc : c = '\n'
    · subst hc
      rw [List.cons_append, splitNl_cons_nl, splitNl_cons_nl, ih]
      cases h : splitNl cs with
      | nil => exact absurd h (splitNl_ne_nil cs)
      | cons l0 ls => simp [List.getLastD_cons]
    · rw [List.cons_append, splitNl_cons_of_ne hc, splitNl_cons_of_ne hc, ih]
      exact consHead_dropLast_append [c] (splitNl_ne_nil cs) (splitNl_ne_nil b)

theorem getLastD_mem {L : List (List Char)} (h : L ≠ []) : L.getLastD [] ∈ L := by
  cases L with
  | nil => exact absurd rfl h
  | cons l0 ls =>
    rw [List.getLastD_cons]
    exact List.getLastD_mem_cons ls l0

theorem getLastD_append_of_ne_nil {X Y : List (List Char)} (h : Y ≠ []) :
    (X ++ Y).getLastD [] = Y.getLastD [] := by
  obtain ⟨y, hy⟩ := Option.isSome_iff_exists.mp (List.getLast?_isSome.mpr h)
  simp [List.getLastD_eq_getLast?, List.getLast?_append, hy]

theorem splitNl_getLastD_no_nl (l : List Char) : '\n' ∉ (splitNl l).getLastD [] :=
  not_mem_of_mem_splitNl (getLastD_mem (splitNl_ne_nil l))

theorem processLine_buffer (parse : List Char → Option J) (st : SSEState J) (line : List Char) :
    (processLine parse st line).buffer = st.buffer := by
  unfold processLine
  split
  · split <;> rfl
  · split <;> rfl

theorem processLine_set_buffer (parse : List Char → Option J) (st : SSEState J)
    (b line : List Char) :
    processLine parse { st with buffer := b } line
      = { processLine parse st line with buffer := b } := by
  unfold processLine
  split
  · split <;> rfl
  · split <;> rfl

theorem foldl_processLine_set_buffer (parse : List Char → Option J) (ls : List (List Char))
    (st : SSEState J) (b : List Char) :
    ls.foldl (processLine parse) { st with buffer := b }
      = { ls.foldl (processLine parse) st with buffer := b } := by
  induction ls generalizing st with
  | nil => rfl
  | cons l ls ih => rw [List.foldl_cons, List.foldl_cons, processLine_set_buffer, ih]

theorem processChunk_buffer_no_nl (parse : List Char → Option J) (st : SSEState J)
    (v : List Char) : '\n' ∉ (processChunk parse st v).buffer :=
  splitNl_getLastD_no_nl _

theorem processChunk_append (parse : List Char → Option J) (st : SSEState J)
    (a b : List Char) :
    processChunk parse (processChunk parse st a) b = processChunk parse st (a ++ b) := by
  have htail : '\n' ∉ (splitNl (st.buffer ++ a)).getLastD [] :=
    not_mem_of_mem_splitNl (getLastD_mem (splitNl_ne_nil _))
  have h2 : splitNl ((splitNl (st.buffer ++ a)).getLastD [] ++ b)
      = consHead ((splitNl (st.buffer ++ a)).getLastD []) (splitNl b) := by
    rw [splitNl_append, splitNl_of_no_nl htail]
    simp [List.getLastD_cons]
  have h3 : splitNl (st.buffer ++ (a ++ b))
      = (splitNl (st.buffer ++ a)).dropLast
          ++ consHead ((splitNl (st.buffer ++ a)).getLastD []) (splitNl b) := by
    rw [← List.append_assoc, splitNl_append]
  simp only [processChunk]
  rw [h2, h3, foldl_processLine_set_buffer]
  simp only [List.dropLast_append_of_ne_nil _ (consHead_ne_nil _ _), List.foldl_append]
  obtain ⟨y, hy⟩ := Option.isSome_iff_exists.mp
    (List.getLast?_isSome.mpr (consHead_ne_nil ((splitNl (st.buffer ++ a)).getLastD []) (splitNl b)))
  simp only [List.getLastD_eq_getLast?] at hy
  simp [hy]

theorem foldl_processChunk_flatten (parse : List Char → Option J) (chunks : List (List Char)) :
    ∀ st : SSEState J, '\n' ∉ st.buffer →
      chunks.foldl (processChunk parse) st = processChunk parse st chunks.flatten := by
  induction chunks with
  | nil =>
    intro st hb
    simp only [List.foldl_nil, List.flatten_nil, processChunk, List.append_nil,
      splitNl_of_no_nl hb]
    rfl
  | cons c cs ih =>
    intro st hb
    rw [List.foldl_cons, ih _ (processChunk_buffer_no_nl parse st c),
      processChunk_append parse st, List.flatten_cons]

theorem parseSSEStream_eq_flatten (parse : List Char → Option J) (chunks : List (List Char)) :
    parseSSEStream parse chunks = sseDecode parse chunks.flatten := by
  unfold sseDecode parseSSEStream
  rw [foldl_processChunk_flatten parse chunks ⟨[], [], []⟩ (by simp),
    List.foldl_cons, List.foldl_nil]

/-- **C3.**  For every finite stream and every way of splitting it into
transport chunks, the event-stream reassembler yields the identical sequence of
decoded records: the decoded record sequence depends only on the concatenation
of the chunks, i.e. it is invariant under re-chunking.  (The `TextDecoderStream`
in front of the line processing is a streaming UTF-8 decoder, so a byte-level
split — including one in the middle of a multi-byte character or of the
record delimiter — yields exactly a character-level re-chunking of the same
decoded text, which is what `chunks.flatten` quantifies over.) -/
theorem sse_rechunk_invariant (parse : List Char → Option J) (c1 c2 : List (List Char))
    (h : c1.flatten = c2.flatten) : parseSSEStream parse c1 = parseSSEStream parse c2 := by
  rw [parseSSEStream_eq_flatten, parseSSEStream_eq_flatten, h]

/-- Witness for C3: the stream `"data: 1\n\n"` split as
`["da", "ta: 1\n\n"]` (mid-marker) and as `["data: 1\n", "\n"]` decodes the
same either way. -/
theorem sse_rechunk_invariant_witness :
    ["da".toList, "ta: 1\n\n".toList].flatten = ["data: 1\n".toList, "\n".toList].flatten ∧
      parseSSEStream (fun l => some l) ["da".toList, "ta: 1\n\n".toList]
        = parseSSEStream (fun l => some l) ["data: 1\n".toList, "\n".toList] :=
  ⟨by decide, sse_rechunk_invariant (fun l => some l) _ _ (by decide)⟩

theorem foldl_payload_sim (parse : List Char → Option J) (lines : List (List Char)) :
    ∀ (st : SSEState J) (pst : PayloadState),
      st.out = pst.recs.filterMap parse → st.objectBuffer = pst.objectBuffer →
      (lines.foldl (processLine parse) st).out
          = (lines.foldl payloadLine pst).recs.filterMap parse ∧
        (lines.foldl (processLine parse) st).objectBuffer
          = (lines.foldl payloadLine pst).objectBuffer := by
  induction lines with
  | nil => exact fun st pst h1 h2 => ⟨h1, h2⟩
  | cons l ls ih =>
    intro st pst h1 h2
    rw [List.foldl_cons, List.foldl_cons]
    have hstep : (processLine parse st l).out
          = (payloadLine pst l).recs.filterMap parse ∧
        (processLine parse st l).objectBuffer = (payloadLine pst l).objectBuffer := by
      unfold processLine payloadLine
      rw [h2]
      split
      · split
        · constructor
          · cases hp : parse pst.objectBuffer <;>
              simp [h1, List.filterMap_append, hp]
          · simp
        · exact ⟨h1, h2⟩
      · split
        · exact ⟨h1, by simp [h2]⟩
        · exact ⟨h1, h2⟩
    exact ih _ _ hstep.1 hstep.2

/-- **C7.**  The decoded output of the reassembler on any stream is exactly the
`filterMap` of the abstract JSON parser over the stream's record payload
sequence: a record whose payload fails to decode is skipped while all later
records are still yielded, and the trailing non-empty
accumulated-but-unterminated payload is decoded and yielded as one best-effort
final record. -/
theorem sse_decode_failures_skipped (parse : List Char → Option J) (s : List Char) :
    sseDecode parse s = (sseRecordPayloads s).filterMap parse := by
  unfold sseDecode parseSSEStream sseRecordPayloads sseFinish payloadFinish
  rw [List.foldl_cons, List.foldl_nil]
  unfold processChunk
  obtain ⟨h1, h2⟩ := foldl_payload_sim parse (splitNl ([] ++ s)).dropLast
    ⟨[], [], []⟩ ⟨[], []⟩ rfl rfl
  simp only [List.nil_append] at h1 h2 ⊢
  rw [List.filterMap_append, h1, h2]
  have hsingle : ∀ l : List Char, (parse l).toList = List.filterMap parse [l] := by
    intro l; cases hp : parse l <;> simp [hp]
  split
  · exact congrArg _ (hsingle _)
  · simp

/-- **C10.**  Line dispatch in the reassembler: a non-blank line never
terminates the current record (the yielded-record list is untouched); a
non-blank line that does not start with the exact six-character marker
`"data: "` is discarded entirely (the state is unchanged, so it contributes no
characters to the accumulated payload either); a marker line contributes
exactly `line.substring(6)`. -/
theorem sse_nondata_line_discarded (parse : List Char → Option J) (st : SSEState J)
    (line : List Char) (h : jsBlank line = false) :
    (processLine parse st line).out = st.out ∧
      (listStartsWith dataMarker line = false → processLine parse st line = st) ∧
      (listStartsWith dataMarker line = true →
        (processLine parse st line).objectBuffer = st.objectBuffer ++ line.drop 6) := by
  unfold processLine
  rw [h]
  simp only [Bool.false_eq_true, if_false]
  refine ⟨?_, ?_, ?_⟩
  · split <;> rfl
  · intro hm; rw [hm]; simp
  · intro hm; rw [hm]; simp

/-- Witness for C10 at the line `"data:1"` — the marker without its trailing
space.  It is not blank, does not carry the marker, and leaves the state (with
a record in progress) completely unchanged. -/
theorem sse_nondata_line_discarded_witness :
    jsBlank "data:1".toList = false ∧
      (processLine (fun l => some l) ⟨[], "x".toList, []⟩ "data:1".toList).out = [] ∧
      (listStartsWith dataMarker "data:1".toList = false →
        processLine (fun l => some l) ⟨[], "x".toList, []⟩ "data:1".toList
          = ⟨[], "x".toList, []⟩) := by
  refine ⟨by decide, ?_, ?_⟩
  · exact (sse_nondata_line_discarded (fun l => some l) ⟨[], "x".toList, []⟩
      "data:1".toList (by decide)).1
  · exact (sse_nondata_line_discarded (fun l => some l) ⟨[], "x".toList, []⟩
      "data:1".toList (by decide)).2.1

theorem getLast?_cons_or {β : Type} (x : β) (l : List β) (u : Option β) :
    ((x :: l).getLast?).or u = (l.getLast?).or (some x) := by
  cases l with
  | nil => simp
  | cons y ys =>
    rw [List.getLast?_cons_cons]
    obtain ⟨z, hz⟩ := Option.isSome_iff_exists.mp (List.getLast?_isSome.mpr (by simp :
      (y :: ys) ≠ []))
    simp [hz]

theorem string_foldl_append (l : List String) :
    ∀ s : String, l.foldl (fun r x => r ++ x) s = s ++ l.foldl (fun r x => r ++ x) "" := by
  induction l with
  | nil => intro s; simp
  | cons x xs ih =>
    intro s
    rw [List.foldl_cons, List.foldl_cons, ih (s ++ x), ih ("" ++ x)]
    simp [String.append_assoc]

theorem stringJoin_cons (s : String) (l : List String) :
    String.join (s :: l) = s ++ String.join l := by
  show (s :: l).foldl (fun r x => r ++ x) "" = _
  rw [List.foldl_cons, string_foldl_append]
  rfl

theorem getCompletionGo_spec {α : Type} (stringify : α → String) (uuid : Nat → String)
    (chunks : List (StreamChunk α)) :
    ∀ (c : String) (u : Option UsageData) (t : List ToolCallOut),
      getCompletionGo stringify uuid chunks c u t =
        (c ++ String.join (chunks.filterMap chunkText),
         ((chunks.filterMap chunkUsage).getLast?).or u,
         t ++ ((chunks.filterMap chunkTool).enumFrom t.length).map
            (fun p => mkToolCallOut stringify uuid p.1 p.2)) := by
  induction chunks with
  | nil => intro c u t; simp [getCompletionGo, String.join]
  | cons ch rest ih =>
    intro c u t
    cases ch with
    | text s =>
      simp [getCompletionGo, ih, chunkText, chunkUsage, chunkTool, stringJoin_cons,
        String.append_assoc]
    | reasoning r =>
      simp [getCompletionGo, ih, chunkText, chunkUsage, chunkTool]
    | thinking_content s =>
      simp [getCompletionGo, ih, chunkText, chunkUsage, chunkTool]
    | real_thinking s =>
      simp [getCompletionGo, ih, chunkText, chunkUsage, chunkTool]
    | tool_code fc =>
      simp only [getCompletionGo, ih]
      simp [chunkText, chunkUsage, chunkTool, mkToolCallOut]
    | usage ud =>
      simp only [getCompletionGo, ih]
      simp [chunkText, chunkUsage, chunkTool, getLast?_cons_or]

/-- **C9.**  The non-streaming completion aggregates one streaming call's chunk
sequence into: `content` = the in-order concatenation of exactly the text
chunks; `usage` = the last usage chunk (absent when none occurred);
`tool_calls` = the tool-call chunks in order, each wrapped with a synthesized
`call_`-prefixed identifier, the field being absent when no tool-call chunk
occurred.  Reasoning / thinking chunks contribute nothing. -/
theorem getCompletion_aggregates {α : Type} (stringify : α → String) (uuid : Nat → String)
    (chunks : List (StreamChunk α)) :
    getCompletionAgg stringify uuid chunks =
      { content := String.join (chunks.filterMap chunkText),
        usage := (chunks.filterMap chunkUsage).getLast?,
        tool_calls := match chunks.filterMap chunkTool with
          | [] => none
          | fcs => some ((fcs.enumFrom 0).map
              (fun p => mkToolCallOut stringify uuid p.1 p.2)) } := by
  unfold getCompletionAgg
  rw [getCompletionGo_spec]
  cases h : chunks.filterMap (chunkTool (α := α)) with
  | nil => simp [h]
  | cons f fs => simp [h]

/-- **C8 (amended).**  For every text-only chat message with *non-empty* text
(string content, not a tool-result turn, no tool calls), conversion to the
upstream format produces a single text part carrying the message text
unchanged, and the response-direction mapping of that echoed part yields a
`text` chunk whose payload equals the original text byte-for-byte.  (As stated
the claim fails for the empty text message: the response direction tests JS
truthiness of `part.text`, and `""` is falsy, so no text chunk is emitted at
all — see the counterexample.) -/
theorem text_message_roundtrip {α γ : Type} (validate : String → ImageValidation)
    (parseArgs : String → Except String α) (stringifyContent : MessageContent → String)
    (cite : String → Option γ → String) (msg : ChatMessage) (s : String)
    (hc : msg.content = .str s) (hs : s ≠ "") (hrole : msg.role ≠ .tool)
    (htc : msg.tool_calls = none) :
    messageToGeminiFormat validate parseArgs stringifyContent msg
        = .ok { role := if msg.role = .assistant then "model" else "user",
                parts := [{ text := some s }] } ∧
      (emitPart (γ := γ) false false false cite none ⟨false, false⟩
          ({ text := some s } : GeminiPart α)).2 = [.text s] := by
  constructor
  · unfold messageToGeminiFormat
    rw [if_neg hrole, htc]
    simp [hc]
  · unfold emitPart truthyStr
    simp [hs]

/-- Witness for the amended C8 at the message `{role: user, content: "hi"}`. -/
theorem text_message_roundtrip_witness :
    messageToGeminiFormat (α := Unit) validateAlwaysOk parseArgsUnit stringifyContentNull
        ⟨.user, .str "hi", none, none⟩
      = .ok { role := "user", parts := [{ text := some "hi" }] } ∧
    (emitPart (γ := Unit) false false false citePlain none ⟨false, false⟩
        ({ text := some "hi" } : GeminiPart Unit)).2 = [.text "hi"] := by
  have h := text_message_roundtrip (γ := Unit) validateAlwaysOk parseArgsUnit
    stringifyContentNull citePlain ⟨.user, .str "hi", none, none⟩ "hi" rfl
    (by decide) (by decide) rfl
  simpa using h

/-- **C8 counterexample.**  The claim as stated quantifies over *every*
text-only chat message.  For the message `{role: user, content: ""}` the
conversion produces the part `{text: ""}`, but the response-direction mapping
emits *no* chunk for it (`part.text` is JS-falsy), so no text chunk with the
original payload exists. -/
theorem text_message_roundtrip_cex :
    messageToGeminiFormat (α := Unit) validateAlwaysOk parseArgsUnit stringifyContentNull
        ⟨.user, .str "", none, none⟩
      = .ok { role := "user", parts := [{ text := some "" }] } ∧
    (emitPart (γ := Unit) false false false citePlain none ⟨false, false⟩
        ({ text := some "" } : GeminiPart Unit)).2 = [] := by
  exact ⟨rfl, rfl⟩

/-! ### C6: token resolution and the freshness buffer -/
/-- **C6 (amended).**  Token resolution: a cached token is served only when its
expiry minus `now` exceeds the 5-minute buffer; otherwise the static
credential's token is adopted (and cached) only when fresh per the same
buffer; otherwise a refresh is performed — a non-success HTTP response fails
with an authentication error carrying the upstream status, and a successful
refresh serves its token and caches it with absolute expiry
`now + expires_in·1000`.  (The freshly refreshed token is served *without*
re-checking the buffer, so the claim's blanket "never serves a token within
the buffer" fails when the refresh returns a lifetime shorter than the
buffer — see the counterexample.) -/
theorem initializeAuth_resolution (ro : String → RefreshHttp) (now : Int)
    (st : AuthState) (acct : Account)
    (hacct : st.accounts.get? st.currentAccountIndex = some acct) :
    (∀ c, cacheGet st.currentAccountIndex st.tokenCache = some c →
      TOKEN_BUFFER_TIME < c.expiry_date - now →
      initializeAuth ro now st = (.ok (), { st with accessToken := some c.access_token })) ∧
    ((∀ c, cacheGet st.currentAccountIndex st.tokenCache = some c →
        ¬ TOKEN_BUFFER_TIME < c.expiry_date - now) →
      TOKEN_BUFFER_TIME < acct.credentials.expiry_date - now →
      initializeAuth ro now st =
        (.ok (), cacheTokenOp now { st with accessToken := some acct.credentials.access_token }
          acct.credentials.access_token acct.credentials.expiry_date)) ∧
    ((∀ c, cacheGet st.currentAccountIndex st.tokenCache = some c →
        ¬ TOKEN_BUFFER_TIME < c.expiry_date - now) →
      ¬ TOKEN_BUFFER_TIME < acct.credentials.expiry_date - now →
      (httpOk (ro acct.credentials.refresh_token).status = false →
        initializeAuth ro now st =
          (.error ("Authentication failed: " ++ ("Token refresh failed for account "
              ++ toString st.currentAccountIndex ++ ": "
              ++ toString (ro acct.credentials.refresh_token).status)),
            { st with refreshCalls := st.refreshCalls + 1 })) ∧
      (httpOk (ro acct.credentials.refresh_token).status = true →
        initializeAuth ro now st =
          (.ok (), cacheTokenOp now
            { st with refreshCalls := st.refreshCalls + 1,
                      accessToken := some (ro acct.credentials.refresh_token).body.access_token }
            (ro acct.credentials.refresh_token).body.access_token
            (now + (ro acct.credentials.refresh_token).body.expires_in * 1000)))) := by
  refine ⟨?_, ?_, ?_⟩
  · intro c hc hfresh
    unfold initializeAuth
    rw [hacct, hc]
    simp [hfresh]
  · intro hstale hfresh
    unfold initializeAuth
    rw [hacct]
    cases hc : cacheGet st.currentAccountIndex st.tokenCache with
    | none => simp [hc, hfresh]
    | some c => simp [hc, hstale c hc, hfresh]
  · intro hstale hstatic
    unfold initializeAuth refreshAndCacheToken
    rw [hacct]
    constructor
    · intro hbad
      cases hc : cacheGet st.currentAccountIndex st.tokenCache with
      | none => simp [hc, hstatic, hbad]
      | some c => simp [hc, hstale c hc, hstatic, hbad]
    · intro hgood
      cases hc : cacheGet st.currentAccountIndex st.tokenCache with
      | none => simp [hc, hstatic, hgood]
      | some c => simp [hc, hstale c hc, hstatic, hgood]

/-- Witness for the amended C6: with an empty cache and a fresh static
credential, `initializeAuth` adopts and caches the static token. -/
theorem initializeAuth_resolution_witness :
    initializeAuth roShortLife 0 stFresh =
      (.ok (), cacheTokenOp 0 ({ accounts := [acctFresh], accessToken := some "statictok" })
        "statictok" 10000000) := by
  have h := (initializeAuth_resolution roShortLife 0 stFresh acctFresh
    rfl).2.1 (fun c hc => by simp [stFresh, cacheGet] at hc) (by decide)
  exact h

/-- **C6 counterexample.**  After a successful refresh returning
`expires_in = 0`, the freshly refreshed token is served (and cached) even
though its expiry minus `now` is `0`, far inside the 5-minute buffer — so token
resolution *does* serve a token within the buffer. -/
theorem initializeAuth_serves_within_buffer :
    (initializeAuth roShortLife 1000000 stStale).1 = .ok () ∧
    (initializeAuth roShortLife 1000000 stStale).2.accessToken = some "shortTok" ∧
    cacheGet 0 (initializeAuth roShortLife 1000000 stStale).2.tokenCache
        = some { access_token := "shortTok", expiry_date := 1000000, cached_at := 1000000 } ∧
    ¬ TOKEN_BUFFER_TIME < (1000000 : Int) - 1000000 := by
  refine ⟨rfl, by decide, by decide, by decide⟩

/-! ### C5: the 401-retry path of `callEndpoint` -/
/-- **C5 (code evaluated at the failing input).**  One account whose *static*
credential is still fresh per the buffer; the endpoint answers 401 then 200.
`callEndpoint` clears the cache and retries the same account exactly once and
returns the decoded body — but `initializeAuth` re-adopts the still-fresh
static credential instead of forcing a refresh: the retry carries the *same*
bearer token and **zero** OAuth refresh requests are issued, contradicting the
claim (and the source's own comment `// This will refresh`). -/
theorem callEndpoint_401_no_refresh_on_fresh_static :
    (callEndpoint roShortLife 0 ctxC5).1 = .ok "okbody" ∧
    (callEndpoint roShortLife 0 ctxC5).2.auth.refreshCalls = 0 ∧
    (callEndpoint roShortLife 0 ctxC5).2.sentTokens
        = [some "statictok", some "statictok"] ∧
    (callEndpoint roShortLife 0 ctxC5).2.fetches = 2 := by
  refine ⟨rfl, by decide, by decide, by decide⟩

/-- The `isRetry = true` loop never invokes its retry continuation: both the
401-retry and the fallback branch are guarded by `!isRetry`. -/
theorem psrLoop_retry_ignores_onRetry {α γ ρ : Type} (cfg : PsrCfg γ)
    (f g : StreamReqBody ρ → GState α γ ρ →
      (List (StreamChunk α) × Except String Unit) × GState α γ ρ) :
    ∀ (n : Nat) (req : StreamReqBody ρ) (le : Option String) (st : GState α γ ρ),
      psrLoop cfg true f n req le st = psrLoop cfg true g n req le st := by
  intro n
  induction n with
  | zero => intro req le st; rfl
  | succ n ih =>
    intro req le st
    simp only [psrLoop, Bool.not_true, Bool.and_false, Bool.false_eq_true, if_false]
    repeat' first
      | rfl
      | exact ih _ _ _
      | split

/-- **C1 counterexample.**  After the quota rotation from account 0 to account
1, the second streaming attempt still carries `proj-0` — the project id
resolved (and cached process-wide in `GeminiApiClient.projectId`) while
account 0 was active.  Account 1's own discovery, whose scripted answer
`proj-1` remains unconsumed in the control script, is never performed: the
outgoing body therefore carries a project id resolved for a previously active
account, contradicting the claim. -/
theorem stale_project_cache_reused :
    (performStreamRequestM cfgBase reqInit false gstC1).2.streamTrace
        = [(0, reqP0), (1, reqP0)] ∧
    (performStreamRequestM cfgBase reqInit false gstC1).2.controlScript
        = [.resp 200 (some "proj-1")] ∧
    (performStreamRequestM cfgBase reqInit false gstC1).1.2 = .ok () := by
  refine ⟨by decide, by decide, rfl⟩

/-- **C4 counterexample.**  With N = 2 accounts all returning 429, the
streaming loop stops after exactly N attempts but throws `lastError` — the
last per-account quota error — not the all-accounts-exhausted error (which the
source only throws when `lastError` is null, impossible on this path). -/
theorem stream_exhaustion_error_is_quota :
    (performStreamRequestM cfgBase reqInit false gstC4).1.2 = .error quotaMsg ∧
    quotaMsg ≠ allAccountsMsg ∧
    (performStreamRequestM cfgBase reqInit false gstC4).2.streamFetches = 2 := by
  refine ⟨rfl, by decide, by decide⟩

/-- **C2 counterexample.** In content-mode thinking synthesis:
(a) with a model fallback, the locally synthesized switch-notification *text*
chunk is emitted *before* the closing wrapper chunk, so the closing wrapper is
not positioned before every real content chunk of the output sequence; and
(b) when the upstream body produces no content chunk at all, the closing
wrapper chunk is never emitted, so it is not emitted "exactly once". -/
theorem thinking_wrapper_violations :
    (performStreamRequestM cfgC2a reqInit false gstC2a).1.1
        = [StreamChunk.text "SWITCH", StreamChunk.thinking_content closeTagStr,
           StreamChunk.text "hi"] ∧
    (performStreamRequestM cfgC2b reqInit false gstC2b).1.1 = [] := by
  refine ⟨by decide, by decide⟩

theorem emitPart_closed {α γ : Type} (nt : Bool) (cite : String → Option γ → String)
    (gmeta : Option γ) (p : GeminiPart α) :
    (emitPart true false nt cite gmeta ⟨true, false⟩ p).1 = ⟨true, false⟩ ∧
      noClosing (emitPart true false nt cite gmeta ⟨true, false⟩ p).2 ∧
      noOpening (emitPart true false nt cite gmeta ⟨true, false⟩ p).2 := by
  unfold emitPart
  cases ht : truthyStr p.text with
  | some t =>
    by_cases hth : p.thought = some true
    · simp [ht, hth, noClosing, noOpening, closingChunk, openingChunk]
    · simp [ht, hth, noClosing, noOpening, closingChunk, openingChunk]
  | none =>
    cases hfc : p.functionCall with
    | some fc => simp [ht, hfc, noClosing, noOpening, closingChunk, openingChunk]
    | none => simp [ht, hfc, noClosing, noOpening]

theorem emitPart_open {α γ : Type} (nt : Bool) (cite : String → Option γ → String)
    (gmeta : Option γ) (p : GeminiPart α) :
    ((emitPart true false nt cite gmeta ⟨false, false⟩ p).1 = ⟨false, false⟩ ∧
        noReal (emitPart true false nt cite gmeta ⟨false, false⟩ p).2 ∧
        noClosing (emitPart true false nt cite gmeta ⟨false, false⟩ p).2 ∧
        noOpening (emitPart true false nt cite gmeta ⟨false, false⟩ p).2) ∨
      ((emitPart true false nt cite gmeta ⟨false, false⟩ p).1 = ⟨true, false⟩ ∧
        ∃ r, (emitPart true false nt cite gmeta ⟨false, false⟩ p).2 = [closingChunk, r] ∧
          isRealChunk r = true ∧ r ≠ closingChunk ∧ r ≠ openingChunk) := by
  unfold emitPart
  cases ht : truthyStr p.text with
  | some t =>
    by_cases hth : p.thought = some true
    · left
      simp [ht, hth, noReal, noClosing, noOpening, closingChunk, openingChunk, isRealChunk]
    · right
      constructor
      · simp [ht, hth]
      · exact ⟨StreamChunk.text (if nt then cite t gmeta else t),
          by simp [ht, hth, closingChunk],
          by simp [isRealChunk],
          by simp [closingChunk],
          by simp [openingChunk]⟩
  | none =>
    cases hfc : p.functionCall with
    | some fc =>
      right
      constructor
      · simp [ht, hfc]
      · exact ⟨StreamChunk.tool_code fc,
          by simp [ht, hfc, closingChunk],
          by simp [isRealChunk],
          by simp [closingChunk],
          by simp [openingChunk]⟩
    | none =>
      left
      simp [ht, hfc, noReal, noClosing, noOpening]

theorem noReal_append {α : Type} {a b : List (StreamChunk α)} (ha : noReal a)
    (hb : noReal b) : noReal (a ++ b) :=
  fun c hc => (List.mem_append.mp hc).elim (ha c) (hb c)

theorem noClosing_append {α : Type} {a b : List (StreamChunk α)} (ha : noClosing a)
    (hb : noClosing b) : noClosing (a ++ b) :=
  fun c hc => (List.mem_append.mp hc).elim (ha c) (hb c)

theorem noOpening_append {α : Type} {a b : List (StreamChunk α)} (ha : noOpening a)
    (hb : noOpening b) : noOpening (a ++ b) :=
  fun c hc => (List.mem_append.mp hc).elim (ha c) (hb c)

theorem emitParts_acc {α γ : Type} (ntc rtac nt : Bool) (cite : String → Option γ → String)
    (gmeta : Option γ) (ps : List (GeminiPart α)) :
    ∀ (s : ThinkSt) (out0 : List (StreamChunk α)),
      ps.foldl (fun acc p =>
          let r := emitPart ntc rtac nt cite gmeta acc.1 p
          (r.1, acc.2 ++ r.2)) (s, out0)
        = ((emitPartsR ntc rtac nt cite gmeta s ps).1,
           out0 ++ (emitPartsR ntc rtac nt cite gmeta s ps).2) := by
  induction ps with
  | nil => intro s out0; simp [emitPartsR]
  | cons p ps ih =>
    intro s out0
    rw [List.foldl_cons]
    show List.foldl _ ((emitPart ntc rtac nt cite gmeta s p).1,
      out0 ++ (emitPart ntc rtac nt cite gmeta s p).2) ps = _
    rw [ih]
    simp [emitPartsR]

theorem emitParts_eq_R {α γ : Type} (ntc rtac nt : Bool) (cite : String → Option γ → String)
    (gmeta : Option γ) (s : ThinkSt) (ps : List (GeminiPart α)) :
    emitParts ntc rtac nt cite gmeta s ps = emitPartsR ntc rtac nt cite gmeta s ps := by
  unfold emitParts
  rw [emitParts_acc]
  simp

theorem emitPartsR_closed {α γ : Type} (nt : Bool) (cite : String → Option γ → String)
    (gmeta : Option γ) (ps : List (GeminiPart α)) :
    (emitPartsR true false nt cite gmeta ⟨true, false⟩ ps).1 = ⟨true, false⟩ ∧
      noClosing (emitPartsR true false nt cite gmeta ⟨true, false⟩ ps).2 ∧
      noOpening (emitPartsR true false nt cite gmeta ⟨true, false⟩ ps).2 := by
  induction ps with
  | nil => exact ⟨rfl, by simp [emitPartsR, noClosing], by simp [emitPartsR, noOpening]⟩
  | cons p ps ih =>
    obtain ⟨h1, h2, h3⟩ := emitPart_closed (α := α) nt cite gmeta p
    simp only [emitPartsR, h1]
    exact ⟨ih.1, noClosing_append h2 ih.2.1, noOpening_append h3 ih.2.2⟩

theorem emitPartsR_open {α γ : Type} (nt : Bool) (cite : String → Option γ → String)
    (gmeta : Option γ) (ps : List (GeminiPart α)) :
    ((emitPartsR true false nt cite gmeta ⟨false, false⟩ ps).1 = ⟨false, false⟩ ∧
        noReal (emitPartsR true false nt cite gmeta ⟨false, false⟩ ps).2 ∧
        noClosing (emitPartsR true false nt cite gmeta ⟨false, false⟩ ps).2 ∧
        noOpening (emitPartsR true false nt cite gmeta ⟨false, false⟩ ps).2) ∨
      ((emitPartsR true false nt cite gmeta ⟨false, false⟩ ps).1 = ⟨true, false⟩ ∧
        ∃ A r B, (emitPartsR true false nt cite gmeta ⟨false, false⟩ ps).2
            = A ++ closingChunk :: r :: B ∧
          noReal A ∧ noClosing A ∧ noOpening A ∧ isRealChunk r = true ∧
          r ≠ openingChunk ∧ noClosing B ∧ noOpening B) := by
  induction ps with
  | nil =>
    left
    exact ⟨rfl, by simp [emitPartsR, noReal], by simp [emitPartsR, noClosing],
      by simp [emitPartsR, noOpening]⟩
  | cons p ps ih =>
    rcases emitPart_open (α := α) nt cite gmeta p with
      ⟨h1, hr, hc, ho⟩ | ⟨h1, r, hout, hreal, _hrc, hro⟩
    · simp only [emitPartsR, h1]
      rcases ih with ⟨g1, gr, gc, go⟩ | ⟨g1, A, r, B, gout, gA1, gA2, gA3, gr, gro, gB1, gB2⟩
      · exact Or.inl ⟨g1, noReal_append hr gr, noClosing_append hc gc, noOpening_append ho go⟩
      · refine Or.inr ⟨g1, (emitPart true false nt cite gmeta ⟨false, false⟩ p).2 ++ A, r, B,
          ?_, noReal_append hr gA1, noClosing_append hc gA2, noOpening_append ho gA3,
          gr, gro, gB1, gB2⟩
        rw [gout, List.append_assoc]
    · simp only [emitPartsR, h1]
      obtain ⟨g1, g2, g3⟩ := emitPartsR_closed (α := α) nt cite gmeta ps
      refine Or.inr ⟨g1, [], r, (emitPartsR true false nt cite gmeta ⟨true, false⟩ ps).2,
        ?_, by simp [noReal], by simp [noClosing], by simp [noOpening],
        hreal, hro, g2, g3⟩
      rw [hout]
      rfl

theorem emitRecord_closed {α γ : Type} (nt : Bool) (cite : String → Option γ → String)
    (rec : GeminiResponse α γ) :
    (emitRecord true false nt cite ⟨true, false⟩ rec).1 = ⟨true, false⟩ ∧
      noClosing (emitRecord true false nt cite ⟨true, false⟩ rec).2 ∧
      noOpening (emitRecord true false nt cite ⟨true, false⟩ rec).2 := by
  simp only [emitRecord]
  cases hp : ((rec.response.bind (fun r => r.candidates.bind (·.head?))).bind
      (·.content)).bind (·.parts) with
  | none =>
    cases hu : rec.response.bind (·.usageMetadata) with
    | none => exact ⟨rfl, by simp [noClosing], by simp [noOpening]⟩
    | some u =>
      exact ⟨rfl, by simp [noClosing, closingChunk], by simp [noOpening, openingChunk]⟩
  | some ps =>
    simp only [emitParts_eq_R]
    obtain ⟨h1, h2, h3⟩ := emitPartsR_closed (α := α) nt cite
      ((rec.response.bind (fun r => r.candidates.bind (·.head?))).bind (·.groundingMetadata)) ps
    cases hu : rec.response.bind (·.usageMetadata) with
    | none => exact ⟨h1, h2, h3⟩
    | some u =>
      refine ⟨h1, noClosing_append h2 ?_, noOpening_append h3 ?_⟩
      · simp [noClosing, closingChunk]
      · simp [noOpening, openingChunk]

theorem emitRecord_open {α γ : Type} (nt : Bool) (cite : String → Option γ → String)
    (rec : GeminiResponse α γ) :
    ((emitRecord true false nt cite ⟨false, false⟩ rec).1 = ⟨false, false⟩ ∧
        noReal (emitRecord true false nt cite ⟨false, false⟩ rec).2 ∧
        noClosing (emitRecord true false nt cite ⟨false, false⟩ rec).2 ∧
        noOpening (emitRecord true false nt cite ⟨false, false⟩ rec).2) ∨
      ((emitRecord true false nt cite ⟨false, false⟩ rec).1 = ⟨true, false⟩ ∧
        ∃ A r B, (emitRecord true false nt cite ⟨false, false⟩ rec).2
            = A ++ closingChunk :: r :: B ∧
          noReal A ∧ noClosing A ∧ noOpening A ∧ isRealChunk r = true ∧
          r ≠ openingChunk ∧ noClosing B ∧ noOpening B) := by
  simp only [emitRecord]
  cases hp : ((rec.response.bind (fun r => r.candidates.bind (·.head?))).bind
      (·.content)).bind (·.parts) with
  | none =>
    cases hu : rec.response.bind (·.usageMetadata) with
    | none =>
      exact Or.inl ⟨rfl, by simp [noReal], by simp [noClosing], by simp [noOpening]⟩
    | some u =>
      exact Or.inl ⟨rfl, by simp [noReal, isRealChunk],
        by simp [noClosing, closingChunk], by simp [noOpening, openingChunk]⟩
  | some ps =>
    simp only [emitParts_eq_R]
    rcases emitPartsR_open (α := α) nt cite
        ((rec.response.bind (fun r => r.candidates.bind (·.head?))).bind
          (·.groundingMetadata)) ps with
      ⟨h1, hr, hc, ho⟩ | ⟨h1, A, r, B, hout, hA1, hA2, hA3, hrl, hro, hB1, hB2⟩
    · cases hu : rec.response.bind (·.usageMetadata) with
      | none => exact Or.inl ⟨h1, hr, hc, ho⟩
      | some u =>
        refine Or.inl ⟨h1, noReal_append hr ?_, noClosing_append hc ?_,
          noOpening_append ho ?_⟩
        · simp [noReal, isRealChunk]
        · simp [noClosing, closingChunk]
        · simp [noOpening, openingChunk]
    · cases hu : rec.response.bind (·.usageMetadata) with
      | none => exact Or.inr ⟨h1, A, r, B, hout, hA1, hA2, hA3, hrl, hro, hB1, hB2⟩
      | some u =>
        refine Or.inr ⟨h1, A, r,
          B ++ [StreamChunk.usage { inputTokens := u.promptTokenCount.getD 0,
                                    outputTokens := u.candidatesTokenCount.getD 0 }],
          ?_, hA1, hA2, hA3, hrl, hro, noClosing_append hB1 ?_, noOpening_append hB2 ?_⟩
        · rw [hout]
          simp
        · simp [noClosing, closingChunk]
        · simp [noOpening, openingChunk]

theorem emitRecords_acc {α γ : Type} (ntc rtac nt : Bool)
    (cite : String → Option γ → String) (records : List (GeminiResponse α γ)) :
    ∀ (s : ThinkSt) (out0 : List (StreamChunk α)),
      records.foldl (fun acc rec =>
          let r := emitRecord ntc rtac nt cite acc.1 rec
          (r.1, acc.2 ++ r.2)) (s, out0)
        = ((emitRecordsR ntc rtac nt cite s records).1,
           out0 ++ (emitRecordsR ntc rtac nt cite s records).2) := by
  induction records with
  | nil => intro s out0; simp [emitRecordsR]
  | cons rec recs ih =>
    intro s out0
    rw [List.foldl_cons]
    show List.foldl _ ((emitRecord ntc rtac nt cite s rec).1,
      out0 ++ (emitRecord ntc rtac nt cite s rec).2) recs = _
    rw [ih]
    simp [emitRecordsR]

theorem emitBody_eq {α γ : Type} (ntc rtac nt : Bool) (cite : String → Option γ → String)
    (records : List (GeminiResponse α γ)) :
    emitBody ntc rtac nt cite records
      = (emitRecordsR ntc rtac nt cite ⟨false, false⟩ records).2 := by
  unfold emitBody
  rw [emitRecords_acc]
  simp

theorem emitRecordsR_closed {α γ : Type} (nt : Bool) (cite : String → Option γ → String)
    (records : List (GeminiResponse α γ)) :
    (emitRecordsR true false nt cite ⟨true, false⟩ records).1 = ⟨true, false⟩ ∧
      noClosing (emitRecordsR true false nt cite ⟨true, false⟩ records).2 ∧
      noOpening (emitRecordsR true false nt cite ⟨true, false⟩ records).2 := by
  induction records with
  | nil => exact ⟨rfl, by simp [emitRecordsR, noClosing], by simp [emitRecordsR, noOpening]⟩
  | cons rec recs ih =>
    obtain ⟨h1, h2, h3⟩ := emitRecord_closed (α := α) nt cite rec
    simp only [emitRecordsR, h1]
    exact ⟨ih.1, noClosing_append h2 ih.2.1, noOpening_append h3 ih.2.2⟩

theorem emitRecordsR_open {α γ : Type} (nt : Bool) (cite : String → Option γ → String)
    (records : List (GeminiResponse α γ)) :
    ((emitRecordsR true false nt cite ⟨false, false⟩ records).1 = ⟨false, false⟩ ∧
        noReal (emitRecordsR true false nt cite ⟨false, false⟩ records).2 ∧
        noClosing (emitRecordsR true false nt cite ⟨false, false⟩ records).2 ∧
        noOpening (emitRecordsR true false nt cite ⟨false, false⟩ records).2) ∨
      ((emitRecordsR true false nt cite ⟨false, false⟩ records).1 = ⟨true, false⟩ ∧
        ∃ A r B, (emitRecordsR true false nt cite ⟨false, false⟩ records).2
            = A ++ closingChunk :: r :: B ∧
          noReal A ∧ noClosing A ∧ noOpening A ∧ isRealChunk r = true ∧
          r ≠ openingChunk ∧ noClosing B ∧ noOpening B) := by
  induction records with
  | nil =>
    left
    exact ⟨rfl, by simp [emitRecordsR, noReal], by simp [emitRecordsR, noClosing],
      by simp [emitRecordsR, noOpening]⟩
  | cons rec recs ih =>
    rcases emitRecord_open (α := α) nt cite rec with
      ⟨h1, hr, hc, ho⟩ | ⟨h1, A, r, B, hout, hA1, hA2, hA3, hrl, hro, hB1, hB2⟩
    · simp only [emitRecordsR, h1]
      rcases ih with ⟨g1, gr, gc, go⟩ |
        ⟨g1, A, r, B, gout, gA1, gA2, gA3, grl, gro, gB1, gB2⟩
      · exact Or.inl ⟨g1, noReal_append hr gr, noClosing_append hc gc, noOpening_append ho go⟩
      · refine Or.inr ⟨g1, (emitRecord true false nt cite ⟨false, false⟩ rec).2 ++ A, r, B,
          ?_, noReal_append hr gA1, noClosing_append hc gA2, noOpening_append ho gA3,
          grl, gro, gB1, gB2⟩
        rw [gout, List.append_assoc]
    · simp only [emitRecordsR, h1]
      obtain ⟨g1, g2, g3⟩ := emitRecordsR_closed (α := α) nt cite recs
      refine Or.inr ⟨g1, A, r,
        B ++ (emitRecordsR true false nt cite ⟨true, false⟩ recs).2,
        ?_, hA1, hA2, hA3, hrl, hro, noClosing_append hB1 g2, noOpening_append hB2 g3⟩
      rw [hout]
      simp

/-- Wrapper shape of one successful response body's chunk emission in
content-mode synthesis: either no real chunk and no closing wrapper at all, or
exactly one closing wrapper immediately before the first real chunk, with no
closing wrapper after it; the body never emits the opening wrapper. -/
theorem emitBody_wrapper {α γ : Type} (nt : Bool) (cite : String → Option γ → String)
    (records : List (GeminiResponse α γ)) :
    ((noReal (emitBody true false nt cite records) ∧
        noClosing (emitBody true false nt cite records)) ∨
      ∃ A r B, emitBody true false nt cite records = A ++ closingChunk :: r :: B ∧
        noReal A ∧ noClosing A ∧ isRealChunk r = true ∧ noClosing B) ∧
      noOpening (emitBody true false nt cite records) := by
  rw [emitBody_eq]
  rcases emitRecordsR_open (α := α) nt cite records with
    ⟨_, hr, hc, ho⟩ | ⟨_, A, r, B, hout, hA1, hA2, hA3, hrl, hro, hB1, hB2⟩
  · exact ⟨Or.inl ⟨hr, hc⟩, ho⟩
  · refine ⟨Or.inr ⟨A, r, B, hout, hA1, hA2, hrl, hB1⟩, ?_⟩
    rw [hout]
    refine noOpening_append hA3 ?_
    intro c hc
    rcases List.mem_cons.mp hc with h | h
    · subst h
      simp [closingChunk, openingChunk, closeTagStr, openTagStr]
    · rcases List.mem_cons.mp h with h' | h'
      · subst h'
        exact hro
      · exact hB2 c h'

theorem psrLoop_shape_retry {α γ ρ : Type} (cfg : PsrCfg γ)
    (h1 : cfg.needsThinkingClose = true) (h2 : cfg.realThinkingAsContent = false)
    (onRetry : StreamReqBody ρ → GState α γ ρ →
      (List (StreamChunk α) × Except String Unit) × GState α γ ρ) :
    ∀ (n : Nat) (req : StreamReqBody ρ) (le : Option String) (st : GState α γ ρ),
      bodyShaped cfg.nativeTools cfg.cite (psrLoop cfg true onRetry n req le st).1.1 := by
  intro n
  induction n with
  | zero => intro req le st; exact Or.inl rfl
  | succ n ih =>
    intro req le st
    simp only [psrLoop, h1, h2, Bool.not_true, Bool.and_false, Bool.false_eq_true, if_false]
    repeat' first
      | exact Or.inl rfl
      | exact Or.inr ⟨_, rfl⟩
      | exact ih _ _ _
      | split

theorem psrLoop_shape_first {α γ ρ : Type} (cfg : PsrCfg γ)
    (h1 : cfg.needsThinkingClose = true) (h2 : cfg.realThinkingAsContent = false)
    (onRetry : StreamReqBody ρ → GState α γ ρ →
      (List (StreamChunk α) × Except String Unit) × GState α γ ρ)
    (hOn : ∀ r s, bodyShaped cfg.nativeTools cfg.cite ((onRetry r s).1.1)) :
    ∀ (n : Nat) (req : StreamReqBody ρ) (le : Option String) (st : GState α γ ρ),
      ∃ notif rest, (psrLoop cfg false onRetry n req le st).1.1 = notif ++ rest ∧
        (notif = [] ∨ ∃ s0, notif = [StreamChunk.text s0]) ∧
        bodyShaped cfg.nativeTools cfg.cite rest := by
  intro n
  induction n with
  | zero =>
    intro req le st
    exact ⟨[], [], rfl, Or.inl rfl, Or.inl rfl⟩
  | succ n ih =>
    intro req le st
    simp only [psrLoop, h1, h2, Bool.not_false, Bool.and_true]
    repeat' first
      | exact ⟨[], [], rfl, Or.inl rfl, Or.inl rfl⟩
      | exact ⟨[], _, rfl, Or.inl rfl, Or.inr ⟨_, rfl⟩⟩
      | exact ⟨[], _, rfl, Or.inl rfl, hOn _ _⟩
      | exact ⟨[_], _, rfl, Or.inr ⟨_, rfl⟩, hOn _ _⟩
      | exact ih _ _ _
      | split

theorem emitBody_noOpening {α γ : Type} (nt : Bool) (cite : String → Option γ → String)
    (records : List (GeminiResponse α γ)) :
    noOpening (emitBody true false nt cite records) :=
  (emitBody_wrapper nt cite records).2

/-- **C2 (amended).**  In content-mode thinking synthesis
(`needsThinkingClose = true`, `realThinkingAsContent = false`), over the full
per-request output sequence (synthesized reasoning prefix followed by the
retry machine's output): the opening wrapper chunk is emitted exactly once, at
the very start; the machine's output is a (possibly absent) synthesized
fallback-switch notification *text* chunk followed by the emission of at most
one successful response body; that body emission contains the closing wrapper
at most once — exactly once when the body produces a real content or tool-call
chunk, and then immediately before the first such body-derived chunk, with no
closing wrapper after it — and not at all when the body produces none.  (As
stated the claim fails in two ways, see the counterexample: the fallback
notification is a real text chunk emitted *before* the closing wrapper, and on
a body with no content chunk the closing wrapper is never emitted.)  The
hypotheses on the synthesized prefix say that the canned narrative chunks are
not themselves wrapper tags. -/
theorem thinking_wrapper_invariant {α γ ρ : Type} (cfg : PsrCfg γ) (req : StreamReqBody ρ)
    (st : GState α γ ρ) (msgs : List String) (size : Nat) (messages : List ChatMessage)
    (h1 : cfg.needsThinkingClose = true) (h2 : cfg.realThinkingAsContent = false)
    (hsC : noClosing (generateReasoningContentChunks (α := α) msgs size messages))
    (hsO : ∀ c ∈ (generateReasoningContentChunks (α := α) msgs size messages).tail,
      c ≠ openingChunk) :
    (generateReasoningContentChunks (α := α) msgs size messages
        ++ (performStreamRequestM cfg req false st).1.1).head? = some openingChunk ∧
    noOpening ((generateReasoningContentChunks (α := α) msgs size messages
        ++ (performStreamRequestM cfg req false st).1.1).tail) ∧
    noClosing (generateReasoningContentChunks (α := α) msgs size messages) ∧
    ∃ notif rest, (performStreamRequestM cfg req false st).1.1 = notif ++ rest ∧
      (notif = [] ∨ ∃ s0, notif = [StreamChunk.text s0]) ∧
      ((noReal rest ∧ noClosing rest) ∨
        ∃ A r B, rest = A ++ closingChunk :: r :: B ∧ noReal A ∧ noClosing A ∧
          isRealChunk r = true ∧ noClosing B) := by
  have hshape := psrLoop_shape_first cfg h1 h2
    (fun r s => psrLoop cfg true (fun _ s' => (([], .error allAccountsMsg), s'))
      (match st.auth.accounts.length with | 0 => 1 | k + 1 => k + 1) r none s)
    (fun r s => psrLoop_shape_retry cfg h1 h2 _ _ r none s)
    (match st.auth.accounts.length with | 0 => 1 | k + 1 => k + 1) req none st
  have hmach : (performStreamRequestM cfg req false st) =
      psrLoop cfg false
        (fun r s => psrLoop cfg true (fun _ s' => (([], .error allAccountsMsg), s'))
          (match st.auth.accounts.length with | 0 => 1 | k + 1 => k + 1) r none s)
        (match st.auth.accounts.length with | 0 => 1 | k + 1 => k + 1) req none st := rfl
  obtain ⟨notif, rest, heq, hnotif, hbody⟩ := hshape
  rw [hmach]
  have hrestO : noOpening rest := by
    rcases hbody with hnil | ⟨records, hrec⟩
    · intro c hc; rw [hnil] at hc; cases hc
    · rw [hrec]; exact emitBody_noOpening _ _ _
  have hnotifO : noOpening notif := by
    rcases hnotif with hnil | ⟨s0, hs0⟩
    · intro c hc; rw [hnil] at hc; cases hc
    · intro c hc
      rw [hs0] at hc
      rcases List.mem_singleton.mp hc with h
      rw [h]
      simp [openingChunk]
  refine ⟨?_, ?_, hsC, notif, rest, heq, hnotif, ?_⟩
  · simp [generateReasoningContentChunks, openingChunk]
  · show noOpening ((generateReasoningContentChunks (α := α) msgs size messages
        ++ (psrLoop cfg false _ _ req none st).1.1).tail)
    rw [heq]
    unfold generateReasoningContentChunks
    intro c hc
    simp only [List.cons_append, List.tail_cons] at hc
    rcases List.mem_append.mp hc with h | h
    · refine hsO c ?_
      unfold generateReasoningContentChunks
      simpa using h
    · rcases List.mem_append.mp h with h' | h'
      · exact hnotifO c h'
      · exact hrestO c h' 
  · rcases hbody with hnil | ⟨records, hrec⟩
    · exact Or.inl (by rw [hnil]; exact ⟨by simp [noReal], by simp [noClosing]⟩)
    · rw [hrec]
      rcases (emitBody_wrapper cfg.nativeTools cfg.cite records).1 with
        ⟨hr, hc⟩ | ⟨A, r, B, hout, hA1, hA2, hrl, hB⟩
      · exact Or.inl ⟨hr, hc⟩
      · exact Or.inr ⟨A, r, B, hout, hA1, hA2, hrl, hB⟩

/-- **C2 witness**: the amended wrapper invariant at a concrete run (one
account, one canned narrative message, upstream success with an empty body). -/
theorem thinking_wrapper_invariant_witness :
    (generateReasoningContentChunks (α := Unit) msgsW 50 messagesW
        ++ (performStreamRequestM cfgC2b reqInit false gstC2b).1.1).head?
        = some openingChunk ∧
    noOpening ((generateReasoningContentChunks (α := Unit) msgsW 50 messagesW
        ++ (performStreamRequestM cfgC2b reqInit false gstC2b).1.1).tail) ∧
    noClosing (generateReasoningContentChunks (α := Unit) msgsW 50 messagesW) ∧
    ∃ notif rest, (performStreamRequestM cfgC2b reqInit false gstC2b).1.1 = notif ++ rest ∧
      (notif = [] ∨ ∃ s0, notif = [StreamChunk.text s0]) ∧
      ((noReal rest ∧ noClosing rest) ∨
        ∃ A r B, rest = A ++ closingChunk :: r :: B ∧ noReal A ∧ noClosing A ∧
          isRealChunk r = true ∧ noClosing B) :=
  thinking_wrapper_invariant cfgC2b reqInit gstC2b msgsW 50 messagesW rfl rfl
    (by decide) (by decide)

theorem refreshAndCacheToken_preserves (ro : String → RefreshHttp) (now : Int)
    (st : AuthState) (tok : String) :
    (refreshAndCacheToken ro now st tok).2.accounts = st.accounts ∧
      (refreshAndCacheToken ro now st tok).2.currentAccountIndex = st.currentAccountIndex := by
  simp only [refreshAndCacheToken, cacheTokenOp]
  split <;> exact ⟨rfl, rfl⟩

theorem initializeAuth_preserves (ro : String → RefreshHttp) (now : Int) (st : AuthState) :
    (initializeAuth ro now st).2.accounts = st.accounts ∧
      (initializeAuth ro now st).2.currentAccountIndex = st.currentAccountIndex := by
  unfold initializeAuth
  cases hacct : st.accounts.get? st.currentAccountIndex with
  | none => exact ⟨rfl, rfl⟩
  | some acct =>
    cases hc : cacheGet st.currentAccountIndex st.tokenCache with
    | some c =>
      by_cases hfr : TOKEN_BUFFER_TIME < c.expiry_date - now
      · simp [hfr]
      · by_cases hstat : TOKEN_BUFFER_TIME < acct.credentials.expiry_date - now
        · simp [hfr, hstat, cacheTokenOp]
        · have hp := refreshAndCacheToken_preserves ro now st acct.credentials.refresh_token
          cases hr : refreshAndCacheToken ro now st acct.credentials.refresh_token with
          | mk r s' =>
            rw [hr] at hp
            cases r <;> simp [hfr, hstat, hr] <;> exact hp
    | none =>
      by_cases hstat : TOKEN_BUFFER_TIME < acct.credentials.expiry_date - now
      · simp [hstat, cacheTokenOp]
      · have hp := refreshAndCacheToken_preserves ro now st acct.credentials.refresh_token
        cases hr : refreshAndCacheToken ro now st acct.credentials.refresh_token with
        | mk r s' =>
          rw [hr] at hp
          cases r <;> simp [hstat, hr] <;> exact hp

theorem cacheGet_mem {k : Nat} {m : List (Nat × CachedTokenData)} {c : CachedTokenData}
    (h : cacheGet k m = some c) : ∃ e ∈ m, e.2 = c := by
  unfold cacheGet at h
  cases hf : m.find? (fun e => e.1 == k) with
  | none => rw [hf] at h; cases h
  | some e =>
    rw [hf] at h
    exact ⟨e, List.mem_of_find?_eq_some hf, by simpa using h⟩

theorem cacheFresh_set {now : Int} {m : List (Nat × CachedTokenData)} {k : Nat}
    {v : CachedTokenData} (hm : cacheFresh now m)
    (hv : TOKEN_BUFFER_TIME < v.expiry_date - now) : cacheFresh now (cacheSet k v m) := by
  intro e he
  unfold cacheSet at he
  rcases List.mem_cons.mp he with h | h
  · rw [h]; exact hv
  · exact hm e (List.mem_of_mem_filter h)

/-- When the active account's static credential and the whole cache are fresh
per the buffer, `initializeAuth` succeeds without a refresh, preserves the
account list and index, and keeps the cache fresh. -/
theorem initializeAuth_fresh (ro : String → RefreshHttp) (now : Int) (st : AuthState)
    (hidx : st.currentAccountIndex < st.accounts.length)
    (hacc : allFresh now st.accounts) (hcache : cacheFresh now st.tokenCache) :
    (initializeAuth ro now st).1 = .ok () ∧
      (initializeAuth ro now st).2.accounts = st.accounts ∧
      (initializeAuth ro now st).2.currentAccountIndex = st.currentAccountIndex ∧
      (initializeAuth ro now st).2.refreshCalls = st.refreshCalls ∧
      cacheFresh now (initializeAuth ro now st).2.tokenCache := by
  obtain ⟨acct, hacct⟩ : ∃ a, st.accounts.get? st.currentAccountIndex = some a :=
    ⟨st.accounts.get ⟨st.currentAccountIndex, hidx⟩, List.get?_eq_get hidx⟩
  have hmem : acct ∈ st.accounts := List.get?_mem hacct
  unfold initializeAuth
  rw [hacct]
  cases hc : cacheGet st.currentAccountIndex st.tokenCache with
  | some c =>
    obtain ⟨e, hem, he2⟩ := cacheGet_mem hc
    have hfr : TOKEN_BUFFER_TIME < c.expiry_date - now := by
      rw [← he2]; exact hcache e hem
    refine ⟨by simp [hfr], by simp [hfr], by simp [hfr], by simp [hfr], ?_⟩
    simpa [hfr] using hcache
  | none =>
    have hstat : TOKEN_BUFFER_TIME < acct.credentials.expiry_date - now := hacc acct hmem
    refine ⟨by simp [hstat], by simp [hstat, cacheTokenOp], by simp [hstat, cacheTokenOp],
      by simp [hstat, cacheTokenOp], ?_⟩
    have hset : cacheFresh now (cacheSet st.currentAccountIndex
        { access_token := acct.credentials.access_token,
          expiry_date := acct.credentials.expiry_date, cached_at := now } st.tokenCache) :=
      cacheFresh_set hcache hstat
    simpa [hstat, cacheTokenOp] using hset

/-- One iteration of `callEndpoint`'s loop under fresh credentials and an
all-429 script: authentication succeeds from cache/static material, the single
`fetch` gets a 429, and the iteration switches account and continues, with all
invariants maintained. -/
theorem callEndpointAttempt_429 {β : Type} (ro : String → RefreshHttp) (now : Int)
    (ctx : EndpointCtx β)
    (hidx : ctx.auth.currentAccountIndex < ctx.auth.accounts.length)
    (hacc : allFresh now ctx.auth.accounts) (hcache : cacheFresh now ctx.auth.tokenCache)
    (hs : all429 ctx.script) :
    (callEndpointAttempt ro now ctx).1 = none ∧
      (callEndpointAttempt ro now ctx).2.auth.accounts = ctx.auth.accounts ∧
      (callEndpointAttempt ro now ctx).2.auth.currentAccountIndex
          < (callEndpointAttempt ro now ctx).2.auth.accounts.length ∧
      cacheFresh now (callEndpointAttempt ro now ctx).2.auth.tokenCache ∧
      all429 (callEndpointAttempt ro now ctx).2.script ∧
      (callEndpointAttempt ro now ctx).2.fetches = ctx.fetches + 1 := by
  obtain ⟨hok, hA, hI, hR, hC⟩ := initializeAuth_fresh ro now ctx.auth hidx hacc hcache
  have hlen : 0 < (initializeAuth ro now ctx.auth).2.accounts.length := by
    rw [hA]; omega
  have hsplit : initializeAuth ro now ctx.auth
      = (.ok (), (initializeAuth ro now ctx.auth).2) := by
    rw [← hok]
  cases hscript : ctx.script with
  | nil =>
    have hred : callEndpointAttempt ro now ctx
        = (none, { auth := switchToNextAccount (initializeAuth ro now ctx.auth).2,
                   script := [],
                   fetches := ctx.fetches + 1,
                   sentTokens := ctx.sentTokens
                     ++ [(initializeAuth ro now ctx.auth).2.accessToken] }) := by
      unfold callEndpointAttempt
      rw [hsplit]
      simp [epFetch, hscript]
    rw [hred]
    refine ⟨rfl, ?_, ?_, ?_, ?_, rfl⟩
    · simpa [switchToNextAccount] using hA
    · exact Nat.mod_lt _ hlen
    · simpa [switchToNextAccount] using hC
    · intro r hr; cases hr
  | cons r rest =>
    have h429 : statusOf r = some 429 := hs r (by rw [hscript]; exact List.mem_cons_self r rest)
    cases r with
    | netError m => exact absurd h429 (by simp [statusOf])
    | resp status b =>
      have hst : status = 429 := by
        have := h429
        simp [statusOf] at this
        exact this
      subst hst
      have hred : callEndpointAttempt ro now ctx
          = (none, { auth := switchToNextAccount (initializeAuth ro now ctx.auth).2,
                     script := rest,
                     fetches := ctx.fetches + 1,
                     sentTokens := ctx.sentTokens
                       ++ [(initializeAuth ro now ctx.auth).2.accessToken] }) := by
        unfold callEndpointAttempt
        rw [hsplit]
        simp [epFetch, hscript, httpOk]
      rw [hred]
      refine ⟨rfl, ?_, ?_, ?_, ?_, rfl⟩
      · simpa [switchToNextAccount] using hA
      · exact Nat.mod_lt _ hlen
      · simpa [switchToNextAccount] using hC
      · intro x hx
        exact hs x (by rw [hscript]; exact List.mem_cons_of_mem _ hx)

/-- The account loop of `callEndpoint` under fresh credentials and an all-429
script: after `n` iterations it fails with the all-accounts-exhausted error,
having made exactly `n` upstream `fetch`es. -/
theorem callEndpointGo_429 {β : Type} (ro : String → RefreshHttp) (now : Int) :
    ∀ (n : Nat) (ctx : EndpointCtx β),
      ctx.auth.currentAccountIndex < ctx.auth.accounts.length →
      allFresh now ctx.auth.accounts → cacheFresh now ctx.auth.tokenCache →
      all429 ctx.script →
      (callEndpointGo ro now n ctx).1 = (.error allAccountsMsg : Except String β) ∧
        (callEndpointGo ro now n ctx).2.fetches = ctx.fetches + n := by
  intro n
  induction n with
  | zero => intro ctx _ _ _ _; exact ⟨rfl, rfl⟩
  | succ n ih =>
    intro ctx hidx hacc hcache hs
    obtain ⟨h1, h2, h3, h4, h5, h6⟩ := callEndpointAttempt_429 ro now ctx hidx hacc hcache hs
    have hallF : allFresh now (callEndpointAttempt ro now ctx).2.auth.accounts := by
      rw [h2]; exact hacc
    have hsplit : callEndpointAttempt ro now ctx
        = (none, (callEndpointAttempt ro now ctx).2) := by
      rw [← h1]
    obtain ⟨ha, hb⟩ := ih (callEndpointAttempt ro now ctx).2 h3 hallF h4 h5
    unfold callEndpointGo
    rw [hsplit]
    exact ⟨ha, by rw [hb, h6]; omega⟩

/-- When the active account carries a truthy static `project_id`,
`discoverProjectId` answers it immediately and touches nothing. -/
theorem discover_static {α γ ρ : Type} (ro : String → RefreshHttp) (now : Int)
    (st : GState α γ ρ) (a : Account) (p : String)
    (ha : st.auth.accounts.get? st.auth.currentAccountIndex = some a)
    (hp : truthyStr a.project_id = some p) :
    discoverProjectIdM ro now st = (.ok p, st) := by
  unfold discoverProjectIdM
  rw [ha]
  simp [hp]

/-- The streaming loop of `performStreamRequest` under fresh credentials,
static project ids and an all-429 stream script: after `n` iterations
(`1 ≤ n`) it fails with the per-account quota message, having issued exactly
`n` streaming `POST`s. -/
theorem psrLoop_429 {α γ ρ : Type} (cfg : PsrCfg γ) (isRetry : Bool)
    (onRetry : StreamReqBody ρ → GState α γ ρ →
      (List (StreamChunk α) × Except String Unit) × GState α γ ρ) :
    ∀ (n : Nat) (req : StreamReqBody ρ) (le : Option String) (st : GState α γ ρ),
      st.auth.currentAccountIndex < st.auth.accounts.length →
      allFresh cfg.now st.auth.accounts → cacheFresh cfg.now st.auth.tokenCache →
      allHaveProj st.auth.accounts →
      all429 st.streamScript → n ≤ st.streamScript.length →
      (psrLoop cfg isRetry onRetry n req le st).1
          = ([], .error (if n = 0 then le.getD allAccountsMsg else quotaMsg)) ∧
        (psrLoop cfg isRetry onRetry n req le st).2.streamFetches
          = st.streamFetches + n := by
  intro n
  induction n with
  | zero => intro req le st _ _ _ _ _ _; exact ⟨rfl, rfl⟩
  | succ n ih =>
    intro req le st hidx hacc hcache hproj hs hn
    cases hscript : st.streamScript with
    | nil => rw [hscript] at hn; simp at hn
    | cons r rest =>
      obtain ⟨a, ha⟩ : ∃ a, st.auth.accounts.get? st.auth.currentAccountIndex = some a :=
        ⟨st.auth.accounts.get ⟨st.auth.currentAccountIndex, hidx⟩, List.get?_eq_get hidx⟩
      obtain ⟨p, hp⟩ := Option.isSome_iff_exists.mp (hproj a (List.get?_mem ha))
      have hdisc := discover_static cfg.ro cfg.now st a p ha hp
      have h429 : statusOf r = some 429 :=
        hs r (by rw [hscript]; exact List.mem_cons_self r rest)
      cases r with
      | netError m => exact absurd h429 (by simp [statusOf])
      | resp status b =>
        have hst : status = 429 := by
          have h2 := h429
          simp [statusOf] at h2
          exact h2
        subst hst
        have hlen : 0 < st.auth.accounts.length := by omega
        have hidx2 : (switchToNextAccount st.auth).currentAccountIndex
            < (switchToNextAccount st.auth).accounts.length :=
          Nat.mod_lt _ hlen
        have hacc2 : allFresh cfg.now (switchToNextAccount st.auth).accounts := hacc
        have hcache2 : cacheFresh cfg.now (switchToNextAccount st.auth).tokenCache := hcache
        obtain ⟨hok2, hA2, hI2, hR2, hC2⟩ := initializeAuth_fresh cfg.ro cfg.now
          (switchToNextAccount st.auth) hidx2 hacc2 hcache2
        have hsplit2 : initializeAuth cfg.ro cfg.now (switchToNextAccount st.auth)
            = (.ok (), (initializeAuth cfg.ro cfg.now (switchToNextAccount st.auth)).2) := by
          rw [← hok2]
        have hstep : psrLoop cfg isRetry onRetry (n + 1) req le st
            = psrLoop cfg isRetry onRetry n
                (if req.project ≠ p then { req with project := p } else req)
                (some quotaMsg)
                { st with auth := (initializeAuth cfg.ro cfg.now (switchToNextAccount st.auth)).2,
                          streamScript := rest,
                          streamFetches := st.streamFetches + 1,
                          streamTrace := st.streamTrace ++ [(st.auth.currentAccountIndex,
                            if req.project ≠ p then { req with project := p } else req)] } := by
          simp only [psrLoop]
          rw [hdisc]
          simp only [streamFetch, hscript]
          simp [httpOk]
          rw [hsplit2]
        rw [hstep]
        have hidx3 : (initializeAuth cfg.ro cfg.now (switchToNextAccount st.auth)).2.currentAccountIndex
            < (initializeAuth cfg.ro cfg.now (switchToNextAccount st.auth)).2.accounts.length := by
          rw [hI2, hA2]; exact hidx2
        have hacc3 : allFresh cfg.now
            (initializeAuth cfg.ro cfg.now (switchToNextAccount st.auth)).2.accounts := by
          rw [hA2]; exact hacc2
        have hproj3 : allHaveProj
            (initializeAuth cfg.ro cfg.now (switchToNextAccount st.auth)).2.accounts := by
          rw [hA2]; exact hproj
        have hs3 : all429 rest := fun x hx =>
          hs x (by rw [hscript]; exact List.mem_cons_of_mem _ hx)
        have hn3 : n ≤ rest.length := by
          rw [hscript] at hn; simpa using hn
        obtain ⟨ih1, ih2⟩ := ih (if req.project ≠ p then { req with project := p } else req)
          (some quotaMsg)
          { st with auth := (initializeAuth cfg.ro cfg.now (switchToNextAccount st.auth)).2,
                    streamScript := rest,
                    streamFetches := st.streamFetches + 1,
                    streamTrace := st.streamTrace ++ [(st.auth.currentAccountIndex,
                      if req.project ≠ p then { req with project := p } else req)] }
          hidx3 hacc3 hC2 hproj3 hs3 hn3
        constructor
        · rw [ih1]
          cases n <;> simp
        · rw [ih2]
          simp
          omega

/-- **C4 (amended).**  With `N` configured accounts (all credentials and cache
entries fresh per the buffer; every account carrying a static project id so
discovery is immediate) whose upstream calls all return HTTP 429, both loops
are bounded: `callEndpoint` makes exactly `N` control `fetch`es — one per
account, rotating round-robin — and then fails with the
all-accounts-exhausted error, while the streaming loop makes exactly `N`
streaming `POST`s and then fails with the *last per-account quota error*
(`"Quota exceeded (429) for current account"`), not the
all-accounts-exhausted error (the source throws `lastError` when it is set —
see the counterexample).  Neither path retries unboundedly. -/
theorem rotation_bound_429 {β α γ ρ : Type} (ro : String → RefreshHttp) (now : Int)
    (ctx : EndpointCtx β) (cfg : PsrCfg γ) (req : StreamReqBody ρ) (gst : GState α γ ρ)
    (hidx : ctx.auth.currentAccountIndex < ctx.auth.accounts.length)
    (hacc : allFresh now ctx.auth.accounts) (hcache : cacheFresh now ctx.auth.tokenCache)
    (hs : all429 ctx.script)
    (hidx2 : gst.auth.currentAccountIndex < gst.auth.accounts.length)
    (hacc2 : allFresh cfg.now gst.auth.accounts)
    (hcache2 : cacheFresh cfg.now gst.auth.tokenCache)
    (hproj : allHaveProj gst.auth.accounts)
    (hs2 : all429 gst.streamScript)
    (hlen : gst.auth.accounts.length ≤ gst.streamScript.length) :
    ((callEndpoint ro now ctx).1 = (.error allAccountsMsg : Except String β) ∧
      (callEndpoint ro now ctx).2.fetches = ctx.fetches + ctx.auth.accounts.length) ∧
    ((performStreamRequestM cfg req false gst).1.2 = .error quotaMsg ∧
      (performStreamRequestM cfg req false gst).2.streamFetches
        = gst.streamFetches + gst.auth.accounts.length) := by
  refine ⟨callEndpointGo_429 ro now ctx.auth.accounts.length ctx hidx hacc hcache hs, ?_⟩
  cases hL : gst.auth.accounts.length with
  | zero => omega
  | succ k =>
    have hml : k + 1 ≤ gst.streamScript.length := by omega
    obtain ⟨h1, h2⟩ := psrLoop_429 cfg false
      (fun r s => psrLoop cfg true (fun _ s' => (([], .error allAccountsMsg), s'))
        (k + 1) r none s)
      (k + 1) req none gst hidx2 hacc2 hcache2 hproj hs2 hml
    have hmach : performStreamRequestM cfg req false gst
        = psrLoop cfg false
            (fun r s => psrLoop cfg true (fun _ s' => (([], .error allAccountsMsg), s'))
              (k + 1) r none s)
            (k + 1) req none gst := by
      unfold performStreamRequestM
      rw [hL]
      rfl
    rw [hmach]
    refine ⟨?_, h2⟩
    rw [h1]
    simp

/-- **C4 witness**: the rotation bound at a concrete two-account run. -/
theorem rotation_bound_429_witness :
    ((callEndpoint roShortLife 0 ctxC4).1 = (.error allAccountsMsg : Except String String) ∧
      (callEndpoint roShortLife 0 ctxC4).2.fetches
        = ctxC4.fetches + ctxC4.auth.accounts.length) ∧
    ((performStreamRequestM cfgBase reqInit false gstC4).1.2 = .error quotaMsg ∧
      (performStreamRequestM cfgBase reqInit false gstC4).2.streamFetches
        = gstC4.streamFetches + gstC4.auth.accounts.length) :=
  rotation_bound_429 roShortLife 0 ctxC4 cfgBase reqInit gstC4
    (by decide) (by decide) (by decide) (by decide)
    (by decide) (by decide) (by decide) (by decide) (by decide) (by decide)

theorem traceGood_nil {ρ : Type} (A : List Account) :
    traceGood A ([] : List (Nat × StreamReqBody ρ)) :=
  fun e he => absurd he (List.not_mem_nil e)

theorem traceGood_append {ρ : Type} {A : List Account}
    {t1 t2 : List (Nat × StreamReqBody ρ)}
    (h1 : traceGood A t1) (h2 : traceGood A t2) : traceGood A (t1 ++ t2) :=
  fun e he => (List.mem_append.mp he).elim (h1 e) (h2 e)

/-- The streaming loop, run over accounts that all carry truthy static project
ids, only ever appends *good* entries to the ghost trace: each attempt is sent
with the project id of the account active at that moment (the per-attempt
re-discovery is then exactly the active account's static id).  `onRetry`
covers the 401-retry and fallback re-entries. -/
theorem psrLoop_trace {α γ ρ : Type} (cfg : PsrCfg γ) (A : List Account)
    (hproj : allHaveProj A) (isRetry : Bool)
    (onRetry : StreamReqBody ρ → GState α γ ρ →
      (List (StreamChunk α) × Except String Unit) × GState α γ ρ)
    (hOn : ∀ r s, s.auth.accounts = A → s.auth.currentAccountIndex < A.length →
      ∃ tr2, (onRetry r s).2.streamTrace = s.streamTrace ++ tr2 ∧ traceGood A tr2) :
    ∀ (n : Nat) (req : StreamReqBody ρ) (le : Option String) (st : GState α γ ρ),
      st.auth.accounts = A → st.auth.currentAccountIndex < A.length →
      ∃ tr, (psrLoop cfg isRetry onRetry n req le st).2.streamTrace
          = st.streamTrace ++ tr ∧ traceGood A tr := by
  intro n
  induction n with
  | zero =>
    intro req le st _ _
    exact ⟨[], by simp [psrLoop], traceGood_nil A⟩
  | succ n ih =>
    intro req le st hA hidxA
    have hlen0 : 0 < A.length := by omega
    have hidx' : st.auth.currentAccountIndex < st.auth.accounts.length := by
      rw [hA]; exact hidxA
    obtain ⟨a, ha⟩ : ∃ a, st.auth.accounts.get? st.auth.currentAccountIndex = some a :=
      ⟨st.auth.accounts.get ⟨st.auth.currentAccountIndex, hidx'⟩, List.get?_eq_get hidx'⟩
    obtain ⟨p, hp⟩ := Option.isSome_iff_exists.mp
      (hproj a (by rw [← hA]; exact List.get?_mem ha))
    have hdisc := discover_static cfg.ro cfg.now st a p ha hp
    have hreq1p : (if req.project ≠ p then { req with project := p } else req).project
        = p := by
      by_cases h : req.project = p
      · rw [if_neg (by simp [h])]; exact h
      · rw [if_pos h]
    have hgood : traceGood A [(st.auth.currentAccountIndex,
        if req.project ≠ p then { req with project := p } else req)] := by
      intro e he
      rw [List.mem_singleton] at he
      subst he
      exact ⟨a, p, by rw [← hA]; exact ha, hp, hreq1p⟩
    simp only [psrLoop]
    rw [hdisc]
    cases hscript : st.streamScript with
    | nil =>
      simp only [streamFetch, hscript]
      exact ⟨_, rfl, hgood⟩
    | cons r rest =>
      simp only [streamFetch, hscript]
      cases r with
      | netError m => exact ⟨_, rfl, hgood⟩
      | resp status b =>
        simp only []
        cases hok : httpOk status with
        | true => exact ⟨_, rfl, hgood⟩
        | false =>
          cases h401 : status == 401 && !isRetry with
          | true =>
            cases hinit : initializeAuth cfg.ro cfg.now (clearTokenCache st.auth) with
            | mk r2 a2 =>
              cases r2 with
              | error e => exact ⟨_, rfl, hgood⟩
              | ok u =>
                have hpres := initializeAuth_preserves cfg.ro cfg.now (clearTokenCache st.auth)
                rw [hinit] at hpres
                obtain ⟨hpa, hpi⟩ := hpres
                have hpa' : a2.accounts = (clearTokenCache st.auth).accounts := hpa
                have hpi' : a2.currentAccountIndex
                    = (clearTokenCache st.auth).currentAccountIndex := hpi
                have h1 : a2.accounts = A := by rw [hpa']; exact hA
                have h2 : a2.currentAccountIndex < A.length := by rw [hpi']; exact hidxA
                obtain ⟨tr2, ht2, hg2⟩ := hOn
                  (if req.project ≠ p then { req with project := p } else req)
                  { st with auth := a2, streamScript := rest,
                            streamFetches := st.streamFetches + 1,
                            streamTrace := st.streamTrace ++ [(st.auth.currentAccountIndex,
                              if req.project ≠ p then { req with project := p } else req)] }
                  h1 h2
                show ∃ tr,
                  (onRetry (if req.project ≠ p then { req with project := p } else req)
                    { st with auth := a2, streamScript := rest,
                              streamFetches := st.streamFetches + 1,
                              streamTrace := st.streamTrace ++ [(st.auth.currentAccountIndex,
                                if req.project ≠ p then { req with project := p } else req)]
                      }).2.streamTrace
                    = st.streamTrace ++ tr ∧ traceGood A tr
                exact ⟨[(st.auth.currentAccountIndex,
                    if req.project ≠ p then { req with project := p } else req)] ++ tr2,
                  by rw [ht2]; exact List.append_assoc _ _ _,
                  traceGood_append hgood hg2⟩
          | false =>
            cases h429 : status == 429 || status == 403 with
            | true =>
              cases hinit : initializeAuth cfg.ro cfg.now (switchToNextAccount st.auth) with
              | mk r2 a2 =>
                cases r2 with
                | error e => exact ⟨_, rfl, hgood⟩
                | ok u =>
                  have hpres := initializeAuth_preserves cfg.ro cfg.now
                    (switchToNextAccount st.auth)
                  rw [hinit] at hpres
                  obtain ⟨hpa, hpi⟩ := hpres
                  have hpa' : a2.accounts = (switchToNextAccount st.auth).accounts := hpa
                  have hpi' : a2.currentAccountIndex
                      = (switchToNextAccount st.auth).currentAccountIndex := hpi
                  have h1 : a2.accounts = A := by rw [hpa']; exact hA
                  have h2 : a2.currentAccountIndex < A.length := by
                    rw [hpi']
                    show (st.auth.currentAccountIndex + 1) % st.auth.accounts.length < A.length
                    rw [hA]
                    exact Nat.mod_lt _ hlen0
                  obtain ⟨tr2, ht2, hg2⟩ := ih
                    (if req.project ≠ p then { req with project := p } else req)
                    (some quotaMsg)
                    { st with auth := a2, streamScript := rest,
                              streamFetches := st.streamFetches + 1,
                              streamTrace := st.streamTrace ++ [(st.auth.currentAccountIndex,
                                if req.project ≠ p then { req with project := p } else req)] }
                    h1 h2
                  show ∃ tr,
                    (psrLoop cfg isRetry onRetry n
                      (if req.project ≠ p then { req with project := p } else req)
                      (some quotaMsg)
                      { st with auth := a2, streamScript := rest,
                                streamFetches := st.streamFetches + 1,
                                streamTrace := st.streamTrace ++ [(st.auth.currentAccountIndex,
                                  if req.project ≠ p then { req with project := p } else req)]
                        }).2.streamTrace
                      = st.streamTrace ++ tr ∧ traceGood A tr
                  exact ⟨[(st.auth.currentAccountIndex,
                      if req.project ≠ p then { req with project := p } else req)] ++ tr2,
                    by rw [ht2]; exact List.append_assoc _ _ _,
                    traceGood_append hgood hg2⟩
            | false =>
              cases hom : truthyStr cfg.originalModel with
              | none => exact ⟨_, rfl, hgood⟩
              | some om =>
                simp only []
                cases hrl : cfg.isRateLimitStatus status && !isRetry with
                | false => exact ⟨_, rfl, hgood⟩
                | true =>
                  cases hfb : truthyStr (cfg.getFallbackModel om) with
                  | none => exact ⟨_, rfl, hgood⟩
                  | some fb =>
                    simp only []
                    cases hsw : cfg.autoSwitchEnabled with
                    | false => exact ⟨_, rfl, hgood⟩
                    | true =>
                      obtain ⟨tr2, ht2, hg2⟩ := hOn
                        { (if req.project ≠ p then { req with project := p } else req)
                            with model := fb }
                        { st with streamScript := rest,
                                  streamFetches := st.streamFetches + 1,
                                  streamTrace := st.streamTrace
                                    ++ [(st.auth.currentAccountIndex,
                                      if req.project ≠ p then { req with project := p }
                                      else req)] }
                        hA hidxA
                      show ∃ tr,
                        ((StreamChunk.text (cfg.switchNotification om fb)
                            :: (onRetry
                              ({ (if req.project ≠ p then { req with project := p } else req)
                                  with model := fb })
                              { st with streamScript := rest,
                                        streamFetches := st.streamFetches + 1,
                                        streamTrace := st.streamTrace
                                          ++ [(st.auth.currentAccountIndex,
                                            if req.project ≠ p then { req with project := p }
                                            else req)] }).1.1,
                          (onRetry
                              ({ (if req.project ≠ p then { req with project := p } else req)
                                  with model := fb })
                              { st with streamScript := rest,
                                        streamFetches := st.streamFetches + 1,
                                        streamTrace := st.streamTrace
                                          ++ [(st.auth.currentAccountIndex,
                                            if req.project ≠ p then { req with project := p }
                                            else req)] }).1.2),
                          (onRetry
                              ({ (if req.project ≠ p then { req with project := p } else req)
                                  with model := fb })
                              { st with streamScript := rest,
                                        streamFetches := st.streamFetches + 1,
                                        streamTrace := st.streamTrace
                                          ++ [(st.auth.currentAccountIndex,
                                            if req.project ≠ p then { req with project := p }
                                            else req)] }).2).2.streamTrace
                          = st.streamTrace ++ tr ∧ traceGood A tr
                      exact ⟨[(st.auth.currentAccountIndex,
                          if req.project ≠ p then { req with project := p } else req)] ++ tr2,
                        by rw [ht2]; exact List.append_assoc _ _ _,
                        traceGood_append hgood hg2⟩

/-- **C1 (amended).**  When every configured account carries a truthy static
`project_id` (so per-attempt discovery is exactly the active account's static
id), every streaming attempt of a request — including post-rotation attempts
after quota errors, 401 retries and fallback re-entries — sends a body whose
project id is precisely the static project id of the account active at the
moment the attempt is issued.  (The claim as stated, over *all* accounts, is
refuted by the counterexample: when project ids come from discovery, the
process-wide `GeminiApiClient.projectId` cache replays the id resolved for a
previously active account after a rotation.) -/
theorem project_patch_uses_active_account {α γ ρ : Type} (cfg : PsrCfg γ)
    (req : StreamReqBody ρ) (gst : GState α γ ρ)
    (hidx : gst.auth.currentAccountIndex < gst.auth.accounts.length)
    (hproj : allHaveProj gst.auth.accounts) :
    ∃ tr, (performStreamRequestM cfg req false gst).2.streamTrace
        = gst.streamTrace ++ tr ∧ traceGood gst.auth.accounts tr := by
  have hOnTriv : ∀ (r : StreamReqBody ρ) (s : GState α γ ρ),
      s.auth.accounts = gst.auth.accounts →
      s.auth.currentAccountIndex < gst.auth.accounts.length →
      ∃ tr2, (((fun (_ : StreamReqBody ρ) (s' : GState α γ ρ) =>
            (((([] : List (StreamChunk α)), (.error allAccountsMsg : Except String Unit)), s')))
          r s).2.streamTrace
        = s.streamTrace ++ tr2 ∧ traceGood gst.auth.accounts tr2) :=
    fun _ s _ _ => ⟨[], by simp, traceGood_nil _⟩
  have hOnInner : ∀ (r : StreamReqBody ρ) (s : GState α γ ρ),
      s.auth.accounts = gst.auth.accounts →
      s.auth.currentAccountIndex < gst.auth.accounts.length →
      ∃ tr2, (((fun (r : StreamReqBody ρ) (s : GState α γ ρ) =>
            psrLoop cfg true (fun _ s' => (([], .error allAccountsMsg), s'))
              (match gst.auth.accounts.length with | 0 => 1 | k + 1 => k + 1) r none s)
          r s).2.streamTrace
        = s.streamTrace ++ tr2 ∧ traceGood gst.auth.accounts tr2) := by
    intro r s hA hi
    exact psrLoop_trace cfg gst.auth.accounts hproj true _ hOnTriv _ r none s hA hi
  exact psrLoop_trace cfg gst.auth.accounts hproj false
    (fun r s => psrLoop cfg true (fun _ s' => (([], .error allAccountsMsg), s'))
      (match gst.auth.accounts.length with | 0 => 1 | k + 1 => k + 1) r none s)
    hOnInner
    (match gst.auth.accounts.length with | 0 => 1 | k + 1 => k + 1) req none gst rfl hidx

/-- **C1 witness**: the amended invariant at a concrete two-account run with
static project ids, in which the first attempt is quota-rotated. -/
theorem project_patch_witness :
    ∃ tr, (performStreamRequestM cfgBase reqInit false gstC4).2.streamTrace
        = gstC4.streamTrace ++ tr ∧ traceGood gstC4.auth.accounts tr :=
  project_patch_uses_active_account cfgBase reqInit gstC4 (by decide) (by decide)

end GeminiProxy
